import Mathlib

/-! porla: webhook delivery and webhook configuration

A shallow embedding of `src/webhookclient.cpp` (the dispatcher `SendEvent`, the request builder
`SendRequest` and the chain of completion handlers `OnAsync*`) and of the `webhooks` part of
`Config::Load` in `src/config.cpp`.

Conventions of the embedding:

* `std::string` is `String`; its `size()` is the UTF-8 byte size.
* A `boost::system::error_code` is an `Option String`: `none` is success, `some msg` is an error
  whose `message()` is `msg`.
* Side effects (log lines, asynchronous operations that are started) are returned as a list of
  `Effect`s, in program order.
* Behaviour of libraries that are not part of the repository (jsonnet evaluation, JSON
  serialisation, OpenSSL) is taken as a parameter, bundled in `Env`.
-/

namespace Porla

/-! ## Values -/

/-- Severity of a `BOOST_LOG_TRIVIAL` line. -/
inductive Severity where
  | debug
  | info
  | warning
  | error
  deriving DecidableEq, Repr

/-- Modelled from the spec: the type `porla::Uri`, declared in `uri.hpp`, which is not among the
sources ("parses an endpoint URL into scheme/host/port/path"). These are the members that
`webhookclient.cpp` reads: `scheme`, `host`, `port` and `path`. -/
structure Uri where
  scheme : String
  host : String
  port : Nat
  path : String
  deriving DecidableEq, Repr

/-- Modelled from the spec: the type `porla::Config::Webhook`, declared in `config.hpp`, which is
not among the sources (the Endpoint Descriptor: `url: string`, `events: set<string>`,
`headers: ordered mapping<string,string>`, `payloadTemplate: optional<string>`). The members are
named as `config.cpp` and `webhookclient.cpp` use them: `on` (the set of event names, kept as a
strictly sorted list; written `on_` here, `on` being a keyword), `url`, `headers` (kept as a
list sorted by key, iterated in that order) and the optional `payload` template. -/
structure Webhook where
  on_ : List String
  url : String
  headers : List (String × String)
  payload : Option String
  deriving DecidableEq, Repr

/-- The members of `WebhookClient::RequestState` that hold data of the delivery: `m_uri`,
`m_webhook`, `m_payload`. A fresh state has a default `Uri` and an empty payload. -/
structure RequestState where
  m_uri : Uri
  m_webhook : Webhook
  m_payload : String
  deriving DecidableEq, Repr

/-- An error code: `none` is success, `some msg` an error with that message. -/
abbrev ErrorCode := Option String

/-! ## HTTP header fields (`boost::beast::http::basic_fields`) -/

/-- ASCII case-insensitive comparison of field names (`beast::iequals`). -/
def iequals (a b : String) : Bool :=
  a.data.map Char.toLower == b.data.map Char.toLower

/-- The fields of a message in insertion order. -/
abbrev Fields := List (String × String)

/-- Remove every field of the given name (`basic_fields::erase`). -/
def Fields.erase (fs : Fields) (name : String) : Fields :=
  fs.filter (fun f => !iequals f.1 name)

/-- Set a field (`basic_fields::set`): every field of that name, compared without regard to
case, is removed and the new field is appended. Names and values are those the library accepts;
they are stored as given. -/
def Fields.set (fs : Fields) (name value : String) : Fields :=
  Fields.erase fs name ++ [(name, value)]

/-- Values of all the fields of a given name, in order. -/
def Fields.values (fs : Fields) (name : String) : List String :=
  (fs.filter (fun f => iequals f.1 name)).map Prod.snd

/-- Number of fields of a given name (`basic_fields::count`). -/
def Fields.count (fs : Fields) (name : String) : Nat :=
  (Fields.values fs name).length

/-- The first field of a given name (`basic_fields::find`). -/
def Fields.find (fs : Fields) (name : String) : Option String :=
  (Fields.values fs name).head?

/-- The verbs `SendRequest` uses. -/
inductive Verb where
  | get
  | post
  deriving DecidableEq, Repr

/-- The request type `http::request<http::string_body>`. -/
structure Request where
  method : Verb
  target : String
  version : Nat
  fields : Fields
  body : String
  deriving DecidableEq, Repr

/-- The canonical names of the `http::field` constants that are used. -/
def field_content_type : String := "Content-Type"

/-- Name of `http::field::host`. -/
def field_host : String := "Host"

/-- Name of `http::field::user_agent`. -/
def field_user_agent : String := "User-Agent"

/-- Name of `http::field::content_length`. -/
def field_content_length : String := "Content-Length"

/-- Name of `http::field::transfer_encoding`. -/
def field_transfer_encoding : String := "Transfer-Encoding"

/-- The part `basic_fields::set_chunked_impl(false)`: when a `Transfer-Encoding` field is present
its value is passed through the token filter that drops a final `chunked`; a non-empty result is
set, an empty one erases the field. The token filter is library code, taken as a parameter. -/
def set_chunked_false (filter_chunked : String → String) (fs : Fields) : Fields :=
  match Fields.find fs field_transfer_encoding with
  | none => fs
  | some v =>
    if (filter_chunked v).isEmpty then Fields.erase fs field_transfer_encoding
    else Fields.set fs field_transfer_encoding (filter_chunked v)

/-- The call `message::prepare_payload` for a request with a string body, whose payload size is
always known: a non-empty body or a POST gets `Content-Length`, otherwise `Content-Length` is
removed; in both cases chunked encoding is switched off. -/
def prepare_payload (filter_chunked : String → String) (req : Request) : Request :=
  let n := req.body.utf8ByteSize
  if n > 0 ∨ req.method = Verb.post then
    { req with fields :=
        set_chunked_false filter_chunked (Fields.set req.fields field_content_length (toString n)) }
  else
    { req with fields :=
        Fields.erase (set_chunked_false filter_chunked req.fields) field_content_length }

/-! ## Libraries outside the repository -/

/-- A JSON value (`nlohmann::json`), as far as events carry one. A floating point number is kept
as its bit pattern. -/
inductive Json where
  | null
  | boolean (b : Bool)
  | number_integer (n : Int)
  | number_float (bits : Nat)
  | string (s : String)
  | array (xs : List Json)
  | object (kvs : List (String × Json))

/-- What the embedding takes from code outside `src/`:

* `Uri_Parse`: `porla::Uri::Parse` (declared in `uri.hpp`), `none` when it returns `false`;
* `jsonnet_init`: `jsonnet::Jsonnet::init`, `none` on success, the `lastError` text on failure;
* `jsonnet_evaluate_snippet`: the jsonnet evaluator as a function of the bound external
  variables, the file name and the snippet, giving the output or the error text;
* `json_dump`: `nlohmann::json::dump`;
* `SSL_set_tlsext_host_name`: `none` on success, the OpenSSL error text on failure;
* `filter_chunked`: the token filter of `set_chunked_false`. -/
structure Env where
  Uri_Parse : String → Option Uri
  jsonnet_init : Option String
  jsonnet_evaluate_snippet : List (String × String) → String → String → Except String String
  json_dump : Json → String
  SSL_set_tlsext_host_name : String → Option String
  filter_chunked : String → String

/-- The class `jsonnet::Jsonnet` (`libjsonnet++`): the external variables bound so far and the
text of the last error. -/
structure Jsonnet where
  ext_vars : List (String × String)
  last_error_ : String
  deriving DecidableEq, Repr

/-- The call `Jsonnet::bindExtCodeVar`: binds `key`, replacing an earlier binding of `key`. -/
def Jsonnet.bindExtCodeVar (jn : Jsonnet) (key value : String) : Jsonnet :=
  { jn with ext_vars := (key, value) :: jn.ext_vars.filter (fun p => p.1 != key) }

/-- The value bound to an external variable, if any. -/
def Jsonnet.extVar (jn : Jsonnet) (key : String) : Option String :=
  (jn.ext_vars.find? (fun p => p.1 == key)).map Prod.snd

/-- The call `Jsonnet::evaluateSnippet(filename, snippet, &output)`: on success the output is
assigned and `true` returned; on failure the error text is recorded, `output` is left as it was
and `false` is returned. The result is `(returned flag, jsonnet object, output)`. -/
def Jsonnet.evaluateSnippet (env : Env) (jn : Jsonnet) (filename snippet output : String) :
    Bool × Jsonnet × String :=
  match env.jsonnet_evaluate_snippet jn.ext_vars filename snippet with
  | Except.error msg => (false, { jn with last_error_ := msg }, output)
  | Except.ok out => (true, jn, out)

/-! ## Effects -/

/-- The two streams of a request state; `async_connect` on `m_ssl_stream` acts on its lowest
layer. -/
inductive Stream where
  | m_stream
  | m_ssl_stream
  deriving DecidableEq, Repr

/-- An asynchronous operation that a handler starts. -/
inductive Op where
  | async_resolve (host service : String)
  | async_connect (stream : Stream)
  | async_handshake
  | async_write (stream : Stream) (req : Request)
  | async_read (stream : Stream)
  deriving DecidableEq, Repr

/-- An observable effect: a log line, a call of `SSL_set_tlsext_host_name` with a host name, or
the start of an asynchronous operation whose completion handler captures `state`. -/
inductive Effect where
  | log (sev : Severity) (msg : String)
  | set_tlsext_host_name (host : String)
  | start (op : Op) (state : RequestState)
  deriving DecidableEq, Repr

/-- The operations started by a list of effects, with the captured state, in order. -/
def started : List Effect → List (Op × RequestState)
  | [] => []
  | Effect.start op st :: rest => (op, st) :: started rest
  | _ :: rest => started rest

/-- The stream chosen by the test `state->m_uri.scheme == "https"`. -/
def streamOf (state : RequestState) : Stream :=
  if state.m_uri.scheme = "https" then Stream.m_ssl_stream else Stream.m_stream

/-! ## `WebhookClient::SendRequest` -/

/-- The request that `SendRequest` builds (the statements before the `async_write`). -/
def buildRequest (env : Env) (state : RequestState) : Request :=
  let req : Request :=
    { method := if state.m_payload.isEmpty then Verb.get else Verb.post
      target := state.m_uri.path
      version := 11
      fields := []
      body := "" }
  let req := { req with fields := Fields.set req.fields field_content_type "application/json" }
  let req := { req with
    fields := state.m_webhook.headers.foldl
      (fun (fs : Fields) (kv : String × String) => Fields.set fs kv.1 kv.2) req.fields }
  let req := { req with
    fields := Fields.set req.fields field_host
      (state.m_uri.host ++ ":" ++ toString state.m_uri.port) }
  let req := { req with fields := Fields.set req.fields field_user_agent "porla/1.0" }
  let req := { req with body := state.m_payload }
  prepare_payload env.filter_chunked req

/-- The function `WebhookClient::SendRequest`: build the request and write it to the stream the
scheme selects; completion goes to `OnAsyncWrite`. -/
def SendRequest (env : Env) (state : RequestState) : List Effect :=
  if state.m_uri.scheme = "https" then
    [Effect.start (Op.async_write Stream.m_ssl_stream (buildRequest env state)) state]
  else
    [Effect.start (Op.async_write Stream.m_stream (buildRequest env state)) state]

/-! ## Completion handlers -/

/-- The handler `WebhookClient::OnAsyncRead`. -/
def OnAsyncRead (ec : ErrorCode) (_state : RequestState) : List Effect :=
  match ec with
  | some msg => [Effect.log Severity.info ("Webhook read error: " ++ msg)]
  | none => []

/-- The handler `WebhookClient::OnAsyncWrite`. -/
def OnAsyncWrite (ec : ErrorCode) (state : RequestState) : List Effect :=
  match ec with
  | some msg => [Effect.log Severity.error ("Webhook write error: " ++ msg)]
  | none =>
    if state.m_uri.scheme = "https" then [Effect.start (Op.async_read Stream.m_ssl_stream) state]
    else [Effect.start (Op.async_read Stream.m_stream) state]

/-- The handler `WebhookClient::OnAsyncHandshake`. -/
def OnAsyncHandshake (env : Env) (ec : ErrorCode) (state : RequestState) : List Effect :=
  match ec with
  | some msg => [Effect.log Severity.error ("Webhook SSL handshake error: " ++ msg)]
  | none => SendRequest env state

/-- The handler `WebhookClient::OnAsyncConnect`. -/
def OnAsyncConnect (env : Env) (ec : ErrorCode) (state : RequestState) : List Effect :=
  match ec with
  | some msg => [Effect.log Severity.error ("Webhook connect error: " ++ msg)]
  | none =>
    if state.m_uri.scheme = "https" then
      match env.SSL_set_tlsext_host_name state.m_uri.host with
      | some msg =>
        [Effect.set_tlsext_host_name state.m_uri.host,
         Effect.log Severity.error ("Failed to set tlsext hostname: " ++ msg)]
      | none =>
        [Effect.set_tlsext_host_name state.m_uri.host, Effect.start Op.async_handshake state]
    else SendRequest env state

/-- The handler `WebhookClient::OnAsyncResolve`. -/
def OnAsyncResolve (ec : ErrorCode) (state : RequestState) : List Effect :=
  match ec with
  | some msg => [Effect.log Severity.error ("Webhook resolve error: " ++ msg)]
  | none =>
    [Effect.start
      (Op.async_connect
        (if state.m_uri.scheme = "https" then Stream.m_ssl_stream else Stream.m_stream))
      state]

/-! ## The chain of completions of one delivery -/

/-- The handler bound to each asynchronous operation (the lambdas passed to
`bind_front_handler` where the operation is started). -/
def complete (env : Env) (op : Op) (ec : ErrorCode) (state : RequestState) : List Effect :=
  match op with
  | Op.async_resolve _ _ => OnAsyncResolve ec state
  | Op.async_connect _ => OnAsyncConnect env ec state
  | Op.async_handshake => OnAsyncHandshake env ec state
  | Op.async_write _ _ => OnAsyncWrite ec state
  | Op.async_read _ => OnAsyncRead ec state

/-- A delivery: its request state and the operation whose completion is awaited, `none` once
nothing is pending. -/
structure Delivery where
  state : RequestState
  pending : Option Op
  deriving DecidableEq, Repr

/-- The pending operation completes with `ec`: its handler runs; the operation the handler
starts, if any, becomes the pending one. -/
def Delivery.step (env : Env) (d : Delivery) (ec : ErrorCode) : Delivery × List Effect :=
  match d.pending with
  | none => (d, [])
  | some op =>
    let effs := complete env op ec d.state
    ({ state := d.state, pending := ((started effs).map Prod.fst).head? }, effs)

/-- Feed a sequence of completion results to a delivery; all effects, in order. -/
def Delivery.run (env : Env) (d : Delivery) : List ErrorCode → List Effect
  | [] => []
  | ec :: ecs => (d.step env ec).2 ++ Delivery.run env (d.step env ec).1 ecs

/-! ## The handlers as member functions of `WebhookClient` -/

/-- The address of a `RequestState` held through a `std::shared_ptr`. -/
abbrev StatePtr := Nat

/-- An asynchronous operation in flight, with the pointer `state` that its completion lambda
captured. -/
structure InFlight where
  op : Op
  state : StatePtr
  deriving DecidableEq, Repr

/-- What a member function of `WebhookClient` that is called with a pointer `state` can read and
write: the member `m_webhooks`, every `RequestState` alive, by address, and the operations in
flight on the `io_context` `m_io`, which serves the resolver `m_resolver` shared by all the
deliveries and the streams of every request state. -/
structure WebhookClient where
  m_webhooks : List Webhook
  states : StatePtr → RequestState
  m_io : List InFlight

/-- An asynchronous operation is started with a completion lambda `[this, state]`: it joins the
operations in flight. -/
def WebhookClient.async_start (client : WebhookClient) (op : Op) (state : StatePtr) :
    WebhookClient × List Effect :=
  ({ client with m_io := client.m_io ++ [{ op := op, state := state }] },
    [Effect.start op (client.states state)])

/-- The function `WebhookClient::SendRequest(state)`, on the client and the pointer. -/
def WebhookClient.SendRequest (env : Env) (client : WebhookClient) (state : StatePtr) :
    WebhookClient × List Effect :=
  if (client.states state).m_uri.scheme = "https" then
    client.async_start
      (Op.async_write Stream.m_ssl_stream (buildRequest env (client.states state))) state
  else
    client.async_start
      (Op.async_write Stream.m_stream (buildRequest env (client.states state))) state

/-- The handler `WebhookClient::OnAsyncRead(ec, size, state)`, on the client and the pointer. -/
def WebhookClient.OnAsyncRead (client : WebhookClient) (ec : ErrorCode) (_state : StatePtr) :
    WebhookClient × List Effect :=
  match ec with
  | some msg => (client, [Effect.log Severity.info ("Webhook read error: " ++ msg)])
  | none => (client, [])

/-- The handler `WebhookClient::OnAsyncWrite(ec, size, state)`, on the client and the
pointer. -/
def WebhookClient.OnAsyncWrite (client : WebhookClient) (ec : ErrorCode) (state : StatePtr) :
    WebhookClient × List Effect :=
  match ec with
  | some msg => (client, [Effect.log Severity.error ("Webhook write error: " ++ msg)])
  | none =>
    if (client.states state).m_uri.scheme = "https" then
      client.async_start (Op.async_read Stream.m_ssl_stream) state
    else client.async_start (Op.async_read Stream.m_stream) state

/-- The handler `WebhookClient::OnAsyncHandshake(ec, state)`, on the client and the pointer. -/
def WebhookClient.OnAsyncHandshake (env : Env) (client : WebhookClient) (ec : ErrorCode)
    (state : StatePtr) : WebhookClient × List Effect :=
  match ec with
  | some msg => (client, [Effect.log Severity.error ("Webhook SSL handshake error: " ++ msg)])
  | none => WebhookClient.SendRequest env client state

/-- The handler `WebhookClient::OnAsyncConnect(ec, type, state)`, on the client and the
pointer. -/
def WebhookClient.OnAsyncConnect (env : Env) (client : WebhookClient) (ec : ErrorCode)
    (state : StatePtr) : WebhookClient × List Effect :=
  match ec with
  | some msg => (client, [Effect.log Severity.error ("Webhook connect error: " ++ msg)])
  | none =>
    if (client.states state).m_uri.scheme = "https" then
      match env.SSL_set_tlsext_host_name (client.states state).m_uri.host with
      | some msg =>
        (client,
          [Effect.set_tlsext_host_name (client.states state).m_uri.host,
           Effect.log Severity.error ("Failed to set tlsext hostname: " ++ msg)])
      | none =>
        ((client.async_start Op.async_handshake state).1,
          Effect.set_tlsext_host_name (client.states state).m_uri.host ::
            (client.async_start Op.async_handshake state).2)
    else WebhookClient.SendRequest env client state

/-- The handler `WebhookClient::OnAsyncResolve(ec, results, state)`, on the client and the
pointer. -/
def WebhookClient.OnAsyncResolve (client : WebhookClient) (ec : ErrorCode) (state : StatePtr) :
    WebhookClient × List Effect :=
  match ec with
  | some msg => (client, [Effect.log Severity.error ("Webhook resolve error: " ++ msg)])
  | none =>
    client.async_start
      (Op.async_connect
        (if (client.states state).m_uri.scheme = "https" then Stream.m_ssl_stream
          else Stream.m_stream))
      state

/-- The member function bound to each asynchronous operation, called with the captured
pointer. -/
def WebhookClient.complete (env : Env) (client : WebhookClient) (op : Op) (ec : ErrorCode)
    (state : StatePtr) : WebhookClient × List Effect :=
  match op with
  | Op.async_resolve _ _ => WebhookClient.OnAsyncResolve client ec state
  | Op.async_connect _ => WebhookClient.OnAsyncConnect env client ec state
  | Op.async_handshake => WebhookClient.OnAsyncHandshake env client ec state
  | Op.async_write _ _ => WebhookClient.OnAsyncWrite client ec state
  | Op.async_read _ => WebhookClient.OnAsyncRead client ec state

/-- The `io_context` reports that the operation number `k` in flight has completed with `ec`:
it is no longer in flight and its completion lambda runs. -/
def WebhookClient.onCompletion (env : Env) (client : WebhookClient) (k : Nat) (ec : ErrorCode) :
    WebhookClient × List Effect :=
  match client.m_io.get? k with
  | none => (client, [])
  | some p =>
    WebhookClient.complete env { client with m_io := client.m_io.eraseIdx k } p.op ec p.state

/-! ## `WebhookClient::SendEvent` -/

/-- A freshly constructed `RequestState` holding a copy of the webhook. -/
def RequestState.fresh (wh : Webhook) : RequestState :=
  { m_uri := { scheme := "", host := "", port := 0, path := "" }, m_webhook := wh, m_payload := "" }

/-- The body of the loop over `m_webhooks` for one webhook: the jsonnet object afterwards and
the effects. -/
def SendEvent_body (env : Env) (eventName : String) (jn : Jsonnet) (wh : Webhook) :
    Jsonnet × List Effect :=
  if !wh.on_.contains eventName then (jn, [])
  else
    let state := RequestState.fresh wh
    let r : Jsonnet × RequestState × List Effect :=
      match wh.payload with
      | some snippet =>
        match Jsonnet.evaluateSnippet env jn "payload" snippet state.m_payload with
        | (false, jn1, out) =>
          (jn1, { state with m_payload := out },
            [Effect.log Severity.error
              ("Failed to evaluate jsonnet snippet: " ++ jn1.last_error_)])
        | (true, jn1, out) => (jn1, { state with m_payload := out }, [])
      | none => (jn, state, [])
    match env.Uri_Parse wh.url with
    | none => (r.1, r.2.2 ++ [Effect.log Severity.error ("Invalid url: " ++ wh.url)])
    | some uri =>
      (r.1, r.2.2 ++
        [Effect.log Severity.debug ("Calling webhook " ++ wh.url),
         Effect.start (Op.async_resolve uri.host (toString uri.port))
           { r.2.1 with m_uri := uri }])

/-- The loop `for (auto const& wh : m_webhooks)`. -/
def SendEvent_loop (env : Env) (eventName : String) : Jsonnet → List Webhook → List Effect
  | _, [] => []
  | jn, wh :: rest =>
    (SendEvent_body env eventName jn wh).2 ++
      SendEvent_loop env eventName (SendEvent_body env eventName jn wh).1 rest

/-- The jsonnet object with the variables of `SendEvent` bound: every entry of `ext_vars`, then
`event_name`. -/
def SendEvent_bind (env : Env) (eventName : String) (ext_vars : List (String × Json)) : Jsonnet :=
  let jn : Jsonnet := { ext_vars := [], last_error_ := "" }
  let jn := ext_vars.foldl
    (fun (jn : Jsonnet) (kv : String × Json) => jn.bindExtCodeVar kv.1 (env.json_dump kv.2)) jn
  jn.bindExtCodeVar "event_name" (env.json_dump (Json.string eventName))

/-- The function `WebhookClient::SendEvent`. -/
def SendEvent (env : Env) (m_webhooks : List Webhook) (eventName : String)
    (ext_vars : List (String × Json)) : List Effect :=
  (match env.jsonnet_init with
    | some err => [Effect.log Severity.error ("Failed to initialize jsonnet: " ++ err)]
    | none => []) ++
  SendEvent_loop env eventName (SendEvent_bind env eventName ext_vars) m_webhooks

/-! ## A concrete environment -/

/-- Decimal value of a list of digits. -/
def digitsToNat (cs : List Char) : Nat :=
  cs.foldl (fun (n : Nat) (c : Char) => 10 * n + (c.toNat - 48)) 0

/-- Modelled from the spec: `porla::Uri::Parse`, declared in `uri.hpp`, which is not among the
sources. The spec says that it "parses an endpoint URL into scheme/host/port/path" and that a
malformed URL is an error. The model accepts `scheme://host[:port][/path]` with a non-empty
scheme and host and a decimal port (80, or 443 for `https`, when there is none), and rejects
every other text. -/
def Uri.Parse (url : String) : Option Uri :=
  let cs := url.data
  let scheme := cs.takeWhile (fun c => c != ':')
  match cs.dropWhile (fun c => c != ':') with
  | ':' :: '/' :: '/' :: rest =>
    let authority := rest.takeWhile (fun c => c != '/')
    let path := rest.dropWhile (fun c => c != '/')
    let host := authority.takeWhile (fun c => c != ':')
    let port := (authority.dropWhile (fun c => c != ':')).drop 1
    if scheme.isEmpty || host.isEmpty || !port.all Char.isDigit then none
    else
      some
        { scheme := String.mk scheme
          host := String.mk host
          port :=
            if port.isEmpty then (if String.mk scheme = "https" then 443 else 80)
            else digitsToNat port
          path := if path.isEmpty then "/" else String.mk path }
  | _ => none

/-- A stand-in for the jsonnet evaluator: the snippet `error` fails, every other snippet
evaluates to itself (so the snippet with no characters renders to the empty text). -/
def sampleEvaluate (_ext : List (String × String)) (_filename snippet : String) :
    Except String String :=
  if snippet = "error" then Except.error "RUNTIME ERROR" else Except.ok snippet

/-- A stand-in for `nlohmann::json::dump`, exact on strings without characters to escape. -/
def sampleDump : Json → String
  | Json.string s => "\"" ++ s ++ "\""
  | Json.null => "null"
  | Json.boolean b => if b then "true" else "false"
  | _ => "{}"

/-- An environment in which every library call succeeds. -/
def sampleEnv : Env :=
  { Uri_Parse := Uri.Parse
    jsonnet_init := none
    jsonnet_evaluate_snippet := sampleEvaluate
    json_dump := sampleDump
    SSL_set_tlsext_host_name := fun _ => none
    filter_chunked := fun v => v }

/-! ## `Config::Load`: the `webhooks` array -/

/-- A TOML node (`toml::node`). A table is kept as its list of key/value pairs in key order,
with distinct keys. -/
inductive Toml where
  | string (s : String)
  | integer (n : Int)
  | boolean (b : Bool)
  | array (xs : List Toml)
  | table (kvs : List (String × Toml))

/-- The node under a key of a table (`tbl[key]`), if there is one. -/
def Toml.lookup : List (String × Toml) → String → Option Toml
  | [], _ => none
  | (k, v) :: rest, key => if k = key then some v else Toml.lookup rest key

/-- The call `node.value<std::string>()`: the text of a string node, nothing otherwise. -/
def Toml.value_string : Option Toml → Option String
  | some (Toml.string s) => some s
  | _ => none

/-- The call `node.as_array()`: the elements of an array node, nothing otherwise. -/
def Toml.as_array : Option Toml → Option (List Toml)
  | some (Toml.array xs) => some xs
  | _ => none

/-- The call `node.as_table()`: the pairs of a table node, nothing otherwise. -/
def Toml.as_table : Toml → Option (List (String × Toml))
  | Toml.table kvs => some kvs
  | _ => none

/-- Lexicographic comparison of two texts, character by character. -/
def chars_less : List Char → List Char → Bool
  | [], [] => false
  | [], _ :: _ => true
  | _ :: _, [] => false
  | a :: as, b :: bs =>
    if a.toNat < b.toNat then true
    else if b.toNat < a.toNat then false
    else chars_less as bs

/-- The order `std::less<std::string>` of the keys of a set or map (on UTF-8 text the order of
the bytes is the order of the characters). -/
def string_less (a b : String) : Bool :=
  chars_less a.data b.data

/-- Insertion into a `std::set<std::string>`, kept as a strictly sorted list. -/
def set_insert : List String → String → List String
  | [], s => [s]
  | x :: rest, s =>
    if string_less s x then s :: x :: rest
    else if s = x then x :: rest
    else x :: set_insert rest s

/-- Insertion into a `std::map<std::string, std::string>`, kept as a list sorted by key:
`insert` leaves an existing entry of the same key as it is. -/
def map_insert : List (String × String) → String → String → List (String × String)
  | [], k, v => [(k, v)]
  | (k1, v1) :: rest, k, v =>
    if string_less k k1 then (k, v) :: (k1, v1) :: rest
    else if k = k1 then (k1, v1) :: rest
    else (k1, v1) :: map_insert rest k v

/-- The loop over `headers_array`, from the headers collected so far. The result is
`Except.error` where the code dereferences an empty `std::optional` (the value of a single-key
header table is not a string), which has no defined behaviour. -/
def loadHeaders : List Toml → List (String × String) →
    Except String (List (String × String) × List Effect)
  | [], headers => Except.ok (headers, [])
  | header_item :: rest, headers =>
    match Toml.as_table header_item with
    | none =>
      match loadHeaders rest headers with
      | Except.error e => Except.error e
      | Except.ok (h, logs) =>
        Except.ok (h, Effect.log Severity.warning "Webhook header item is not a TOML table"
          :: logs)
    | some header_tbl =>
      if header_tbl.length ≠ 1 then
        match loadHeaders rest headers with
        | Except.error e => Except.error e
        | Except.ok (h, logs) =>
          Except.ok (h,
            Effect.log Severity.warning "Webhook header item should only have a single value"
              :: logs)
      else
        match header_tbl.head? with
        | some (key, Toml.string value) => loadHeaders rest (map_insert headers key value)
        | _ => Except.error "undefined: header value is not a string"

/-- The two statements on `wh_tbl["on"]`, from the set collected so far: a string is inserted;
of an array every element that is a string is inserted. -/
def loadOn (wh_tbl : List (String × Toml)) (on0 : List String) : List String :=
  let on1 :=
    match Toml.value_string (Toml.lookup wh_tbl "on") with
    | some val => set_insert on0 val
    | none => on0
  match Toml.as_array (Toml.lookup wh_tbl "on") with
  | some val =>
    val.foldl
      (fun (s : List String) (event_name : Toml) =>
        match Toml.value_string (some event_name) with
        | some event_name_str => set_insert s event_name_str
        | none => s)
      on1
  | none => on1

/-- The body of the loop over `webhooks_array` for one element: the `Webhook` that is pushed to
`cfg->webhooks` and the log lines. The result is `Except.error` where the code dereferences a
null pointer (the element is not a table) or an empty `std::optional` (no string `url`). -/
def loadWebhook (wh : Toml) : Except String (Webhook × List Effect) :=
  match Toml.as_table wh with
  | none => Except.error "undefined: webhook item is not a table"
  | some wh_tbl =>
    let hook : Webhook := { on_ := [], url := "", headers := [], payload := none }
    let hook := { hook with on_ := loadOn wh_tbl hook.on_ }
    match Toml.value_string (Toml.lookup wh_tbl "url") with
    | none => Except.error "undefined: webhook item has no string url"
    | some url =>
      let hook := { hook with url := url }
      let r : Except String (Webhook × List Effect) :=
        match Toml.as_array (Toml.lookup wh_tbl "headers") with
        | some headers_array =>
          match loadHeaders headers_array hook.headers with
          | Except.error e => Except.error e
          | Except.ok (h, logs) => Except.ok ({ hook with headers := h }, logs)
        | none => Except.ok (hook, [])
      match r with
      | Except.error e => Except.error e
      | Except.ok (hook, logs) =>
        match Toml.value_string (Toml.lookup wh_tbl "payload") with
        | some val => Except.ok ({ hook with payload := some val }, logs)
        | none => Except.ok (hook, logs)

/-- The loop over `webhooks_array`, appending to `cfg->webhooks`. -/
def loadWebhooks : List Toml → List Webhook → Except String (List Webhook × List Effect)
  | [], webhooks => Except.ok (webhooks, [])
  | wh :: rest, webhooks =>
    match loadWebhook wh with
    | Except.error e => Except.error e
    | Except.ok (hook, logs) =>
      match loadWebhooks rest (webhooks ++ [hook]) with
      | Except.error e => Except.error e
      | Except.ok (whs, logs1) => Except.ok (whs, logs ++ logs1)

/-- The `webhooks` part of `Config::Load`, from the parsed configuration table: the value of
`cfg->webhooks` (empty in a new `Config`) and the log lines. -/
def Config_Load_webhooks (config_file_tbl : List (String × Toml)) :
    Except String (List Webhook × List Effect) :=
  match Toml.as_array (Toml.lookup config_file_tbl "webhooks") with
  | some webhooks_array => loadWebhooks webhooks_array []
  | none => Except.ok ([], [])

/-! ## Characterisation of the dispatch loop (used in the proofs) -/

/-- The payload a delivery for `wh` carries when the bound variables are `ext`: the output of
the template if there is one and it evaluates, the empty text otherwise. -/
def renderedPayload (env : Env) (ext : List (String × String)) (wh : Webhook) : String :=
  match wh.payload with
  | some snippet =>
    match env.jsonnet_evaluate_snippet ext "payload" snippet with
    | Except.ok out => out
    | Except.error _ => ""
  | none => ""

/-- The delivery, if any, that one pass of the loop body starts for `wh`. -/
def deliveryFor (env : Env) (eventName : String) (ext : List (String × String)) (wh : Webhook) :
    Option (Op × RequestState) :=
  if wh.on_.contains eventName then
    match env.Uri_Parse wh.url with
    | some uri =>
      some (Op.async_resolve uri.host (toString uri.port),
        { m_uri := uri, m_webhook := wh, m_payload := renderedPayload env ext wh })
    | none => none
  else none

/-! ## Well-formed configuration entries (used in the statement about `Config::Load`) -/

/-- A header item on which the loop over `headers_array` has defined behaviour: anything but a
table with exactly one key whose value is not a string. -/
def headerItemDefined (header_item : Toml) : Bool :=
  match Toml.as_table header_item with
  | none => true
  | some header_tbl =>
    if header_tbl.length ≠ 1 then true
    else
      match header_tbl.head? with
      | some (_, Toml.string _) => true
      | _ => false

/-- An element of the `webhooks` array on which the loop body has defined behaviour: a table
with a string `url` whose header items, if `headers` is an array, are all as above. -/
def entryDefined (wh : Toml) : Bool :=
  match Toml.as_table wh with
  | none => false
  | some wh_tbl =>
    (Toml.value_string (Toml.lookup wh_tbl "url")).isSome &&
      (match Toml.as_array (Toml.lookup wh_tbl "headers") with
        | some headers_array => headers_array.all headerItemDefined
        | none => true)

/-- The webhook `hook` holds what the table `wh` configures: its `url`; its `payload` if that is
a string; as event names the string `on` or the strings of the array `on`; and as headers only
pairs given by single-key header items with a string value, with every key of such an item
present. -/
def EntryLoadedAs (wh : Toml) (hook : Webhook) : Prop :=
  ∃ wh_tbl, wh = Toml.table wh_tbl ∧
    Toml.value_string (Toml.lookup wh_tbl "url") = some hook.url ∧
    hook.payload = Toml.value_string (Toml.lookup wh_tbl "payload") ∧
    (∀ name, name ∈ hook.on_ ↔
      (Toml.lookup wh_tbl "on" = some (Toml.string name) ∨
        ∃ xs, Toml.lookup wh_tbl "on" = some (Toml.array xs) ∧ Toml.string name ∈ xs)) ∧
    (∀ key value, (key, value) ∈ hook.headers →
      ∃ hs, Toml.lookup wh_tbl "headers" = some (Toml.array hs) ∧
        Toml.table [(key, Toml.string value)] ∈ hs) ∧
    (∀ key value hs, Toml.lookup wh_tbl "headers" = some (Toml.array hs) →
      Toml.table [(key, Toml.string value)] ∈ hs → ∃ v, (key, v) ∈ hook.headers)

/-- A header item that the loop over `headers_array` passes over: not a table, or a table that
does not have exactly one key. -/
def headerItemSkipped (header_item : Toml) : Bool :=
  match Toml.as_table header_item with
  | none => true
  | some header_tbl => decide (header_tbl.length ≠ 1)

/-- The number of header items of a `webhooks` element that are passed over. -/
def skippedHeaderItems (wh : Toml) : Nat :=
  match Toml.as_table wh with
  | none => 0
  | some wh_tbl =>
    match Toml.as_array (Toml.lookup wh_tbl "headers") with
    | some headers_array => (headers_array.filter headerItemSkipped).length
    | none => 0

/-- A log line of severity `warning`. -/
def isWarning : Effect → Bool
  | Effect.log Severity.warning _ => true
  | _ => false

/-! ## The lifecycle handlers and `to_json(torrent_status)` -/

/-- The type `libtorrent::info_hash_t`: the v1 and v2 digests, as text. -/
structure info_hash_t where
  v1 : String
  v2 : String
  deriving DecidableEq, Repr

/-- The members of `libtorrent::torrent_status` that `to_json` reads. The floating point
`progress` is kept as its bit pattern. -/
structure torrent_status where
  info_hashes : info_hash_t
  name : String
  progress : Nat
  save_path : String
  total : Int
  total_done : Int
  total_wanted : Int
  deriving DecidableEq, Repr

/-- The function `libtorrent::to_json(json&, torrent_status const&)` of
`json/lttorrentstatus.hpp`. The conversion of an `info_hash_t` is declared in
`json/ltinfohash.hpp`, which is not among the sources, and is taken as the parameter
`ih_json`. -/
def to_json (ih_json : info_hash_t → Json) (ts : torrent_status) : Json :=
  Json.object
    [("info_hash", ih_json ts.info_hashes),
     ("name", Json.string ts.name),
     ("progress", Json.number_float ts.progress),
     ("save_path", Json.string ts.save_path),
     ("total", Json.number_integer ts.total),
     ("total_done", Json.number_integer ts.total_done),
     ("total_wanted", Json.number_integer ts.total_wanted)]

/-- The handler `WebhookClient::OnTorrentAdded`. -/
def OnTorrentAdded (env : Env) (ih_json : info_hash_t → Json) (m_webhooks : List Webhook)
    (ts : torrent_status) : List Effect :=
  SendEvent env m_webhooks "torrent_added" [("torrent", to_json ih_json ts)]

/-- The handler `WebhookClient::OnTorrentFinished`. -/
def OnTorrentFinished (env : Env) (ih_json : info_hash_t → Json) (m_webhooks : List Webhook)
    (ts : torrent_status) : List Effect :=
  SendEvent env m_webhooks "torrent_finished" [("torrent", to_json ih_json ts)]

/-- The handler `WebhookClient::OnTorrentPaused`. -/
def OnTorrentPaused (env : Env) (ih_json : info_hash_t → Json) (m_webhooks : List Webhook)
    (ts : torrent_status) : List Effect :=
  SendEvent env m_webhooks "torrent_paused" [("torrent", to_json ih_json ts)]

/-- The handler `WebhookClient::OnTorrentRemoved`. -/
def OnTorrentRemoved (env : Env) (ih_json : info_hash_t → Json) (m_webhooks : List Webhook)
    (ih : info_hash_t) : List Effect :=
  SendEvent env m_webhooks "torrent_removed"
    [("torrent", Json.object [("info_hash", ih_json ih)])]

/-- The handler `WebhookClient::OnTorrentResumed`. -/
def OnTorrentResumed (env : Env) (ih_json : info_hash_t → Json) (m_webhooks : List Webhook)
    (ts : torrent_status) : List Effect :=
  SendEvent env m_webhooks "torrent_resumed" [("torrent", to_json ih_json ts)]

/-- The keys of a JSON object, in order; nothing for other values. -/
def Json.keys : Json → List String
  | Json.object kvs => kvs.map Prod.fst
  | _ => []

/-- The member of a JSON object under a key. -/
def Json.member : Json → String → Option Json
  | Json.object kvs, key => (kvs.find? (fun kv => kv.1 == key)).map Prod.snd
  | _, _ => none

/-- A conversion of `info_hash_t` for concrete instances: the v1 digest as a JSON string. -/
def sample_ih_json (ih : info_hash_t) : Json :=
  Json.string ih.v1

/-! ## `Actions::Log::Invoke` -/

/-- What `Log::Invoke` does that can be observed: a log line, or a call of
`callback->Invoke` with a flag. -/
inductive ActionEffect where
  | log (sev : Severity) (msg : String)
  | callback_Invoke (flag : Bool)
  deriving DecidableEq, Repr

/-- The function `Actions::Log::Invoke(hash, args, callback)`. The text that streaming a TOML
string node to the log produces is library behaviour, taken as the parameter `format`. The
result is `Except.error` where the code dereferences a null pointer (`args[0].as_string()` on a
first element that is not a string). -/
def Log_Invoke (format : String → String) (_hash : info_hash_t) (args : List Toml) :
    Except String (List ActionEffect) :=
  match args with
  | [] => Except.ok []
  | first :: _ =>
    match first with
    | Toml.string s =>
      Except.ok [ActionEffect.log Severity.info (format s), ActionEffect.callback_Invoke true]
    | _ => Except.error "undefined: first argument is not a string"

/-- The calls of the completion callback among the effects, with their flags. -/
def callbackCalls : List ActionEffect → List Bool
  | [] => []
  | ActionEffect.callback_Invoke flag :: rest => flag :: callbackCalls rest
  | _ :: rest => callbackCalls rest

/-! ## `ApplyPresetActions` -/

/-- The type `Config::PresetAction`, with the two members the code initialises. -/
structure PresetAction where
  action_name : String
  arguments : List Toml

/-- The loop `for (int i = 1; i < action_parameters->size(); i++)` that pushes
`action_parameters->at(i)` to `action_args`; `fuel` bounds the number of passes. The counter is
taken as a natural number: an `int` holds it for every array of fewer than 2^31 elements. -/
def action_args_loop (action_parameters : List Toml) : Nat → Nat → List Toml → List Toml
  | 0, _, action_args => action_args
  | fuel + 1, i, action_args =>
    if i < action_parameters.length then
      match action_parameters.get? i with
      | some x => action_args_loop action_parameters fuel (i + 1) (action_args ++ [x])
      | none => action_args
    else action_args

/-- The function `ApplyPresetActions(config_actions, actions_array)`: the value of
`config_actions` afterwards. -/
def ApplyPresetActions : List PresetAction → List Toml → List PresetAction
  | config_actions, [] => config_actions
  | config_actions, actions_item :: rest =>
    match Toml.as_array (some actions_item) with
    | none => ApplyPresetActions config_actions rest
    | some action_parameters =>
      if action_parameters.isEmpty then ApplyPresetActions config_actions rest
      else
        match Toml.value_string (action_parameters.get? 0) with
        | none => ApplyPresetActions config_actions rest
        | some action_name =>
          let action_args :=
            action_args_loop action_parameters action_parameters.length 1 []
          ApplyPresetActions
            (config_actions ++ [{ action_name := action_name, arguments := action_args }]) rest

/-- The preset action that the claim about `ApplyPresetActions` assigns to an item: for a
non-empty array whose first element is a string, that string with the remaining elements; for
every other item none. -/
def spec_presetAction : Toml → Option PresetAction
  | Toml.array (Toml.string action_name :: arguments) =>
    some { action_name := action_name, arguments := arguments }
  | _ => none

end Porla

namespace Porla

/-! ## Header fields: lemmas -/

theorem iequals_iff (a b : String) :
    iequals a b = true ↔ a.data.map Char.toLower = b.data.map Char.toLower := by
  simp [iequals]

theorem values_erase (fs : Fields) (n m : String) :
    Fields.values (Fields.erase fs n) m = if iequals n m then [] else Fields.values fs m := by
  unfold Fields.values Fields.erase
  rw [List.filter_filter]
  split
  · next h =>
    rw [iequals_iff] at h
    have : ∀ f : String × String, (iequals f.1 m && !iequals f.1 n) = false := by
      intro f
      cases hf : iequals f.1 m
      · simp
      · rw [iequals_iff] at hf
        have : iequals f.1 n = true := by rw [iequals_iff, hf, h]
        simp [this]
    simp [this]
  · next h =>
    congr 1
    apply List.filter_congr
    intro f _
    cases hf : iequals f.1 m
    · simp
    · cases hn : iequals f.1 n
      · simp
      · exfalso
        apply h
        rw [iequals_iff] at hf hn ⊢
        rw [← hn, hf]

theorem values_set (fs : Fields) (n v m : String) :
    Fields.values (Fields.set fs n v) m = if iequals n m then [v] else Fields.values fs m := by
  have h := values_erase fs n m
  unfold Fields.values at h ⊢
  unfold Fields.set
  rw [List.filter_append, List.map_append, h]
  by_cases hn : iequals n m = true
  · simp [hn]
  · simp [hn]

theorem values_foldl_set (hs : List (String × String)) (fs : Fields) (m : String) :
    Fields.values
        (hs.foldl (fun (fs : Fields) (kv : String × String) => Fields.set fs kv.1 kv.2) fs) m =
      match (hs.filter (fun kv => iequals kv.1 m)).getLast? with
      | some kv => [kv.2]
      | none => Fields.values fs m := by
  induction hs generalizing fs with
  | nil => simp
  | cons h hs ih =>
    rw [List.foldl_cons, ih, values_set]
    by_cases hm : iequals h.1 m = true
    · have e : List.filter (fun kv : String × String => iequals kv.1 m) (h :: hs) =
          h :: List.filter (fun kv : String × String => iequals kv.1 m) hs := by
        simp [List.filter_cons, hm]
      rw [e]
      cases hl : List.filter (fun kv : String × String => iequals kv.1 m) hs with
      | nil => simp [hm]
      | cons x xs =>
        rw [List.getLast?_cons_cons, List.getLast?_eq_getLast _ (List.cons_ne_nil x xs)]
    · have e : List.filter (fun kv : String × String => iequals kv.1 m) (h :: hs) =
          List.filter (fun kv : String × String => iequals kv.1 m) hs := by
        simp [List.filter_cons, hm]
      rw [e]
      simp [hm]

theorem values_set_chunked_false (f : String → String) (fs : Fields) (m : String)
    (hm : iequals field_transfer_encoding m = false) :
    Fields.values (set_chunked_false f fs) m = Fields.values fs m := by
  unfold set_chunked_false
  split
  · rfl
  · split
    · rw [values_erase, hm]; simp
    · rw [values_set, hm]; simp

theorem values_prepare_payload (f : String → String) (req : Request) (m : String)
    (hm : iequals field_transfer_encoding m = false)
    (hl : iequals field_content_length m = false) :
    Fields.values (prepare_payload f req).fields m = Fields.values req.fields m := by
  unfold prepare_payload
  simp only
  split
  · simp only
    rw [values_set_chunked_false f _ m hm, values_set, hl]; simp
  · simp only
    rw [values_erase, hl]
    simp [values_set_chunked_false f _ m hm]

end Porla

namespace Porla

/-! ## The dispatch loop: lemmas -/

theorem started_append (a b : List Effect) : started (a ++ b) = started a ++ started b := by
  induction a with
  | nil => rfl
  | cons e a ih => cases e <;> simp [started, ih]

theorem body_ext_vars (env : Env) (n : String) (jn : Jsonnet) (wh : Webhook) :
    (SendEvent_body env n jn wh).1.ext_vars = jn.ext_vars := by
  unfold SendEvent_body
  split
  · rfl
  · cases hp : wh.payload with
    | none => cases hu : env.Uri_Parse wh.url <;> simp
    | some snippet =>
      cases he : env.jsonnet_evaluate_snippet jn.ext_vars "payload" snippet <;>
        cases hu : env.Uri_Parse wh.url <;> simp [Jsonnet.evaluateSnippet, he]

theorem started_body (env : Env) (n : String) (jn : Jsonnet) (wh : Webhook) :
    started (SendEvent_body env n jn wh).2 = (deliveryFor env n jn.ext_vars wh).toList := by
  unfold SendEvent_body deliveryFor
  by_cases hc : wh.on_.contains n = true
  · simp only [hc, Bool.not_true, Bool.false_eq_true, if_false, if_true]
    cases hp : wh.payload with
    | none =>
      cases hu : env.Uri_Parse wh.url <;>
        simp [started, started_append, renderedPayload, hp, RequestState.fresh]
    | some snippet =>
      cases he : env.jsonnet_evaluate_snippet jn.ext_vars "payload" snippet <;>
        cases hu : env.Uri_Parse wh.url <;>
        simp [started, started_append, renderedPayload, hp, he, RequestState.fresh,
          Jsonnet.evaluateSnippet]
  · simp only [Bool.not_eq_true] at hc
    simp only [hc, Bool.not_false, if_true, Bool.false_eq_true, if_false]
    rfl

theorem started_loop (env : Env) (n : String) (jn : Jsonnet) (whs : List Webhook) :
    started (SendEvent_loop env n jn whs) = whs.filterMap (deliveryFor env n jn.ext_vars) := by
  induction whs generalizing jn with
  | nil => rfl
  | cons wh rest ih =>
    rw [SendEvent_loop, started_append, ih, started_body, body_ext_vars]
    cases h : deliveryFor env n jn.ext_vars wh <;> simp [List.filterMap_cons, h]

theorem started_SendEvent (env : Env) (whs : List Webhook) (n : String)
    (ext_vars : List (String × Json)) :
    started (SendEvent env whs n ext_vars) =
      whs.filterMap (deliveryFor env n (SendEvent_bind env n ext_vars).ext_vars) := by
  unfold SendEvent
  rw [started_append, started_loop]
  cases env.jsonnet_init <;> simp [started]

theorem started_SendEvent_append (env : Env) (xs ys : List Webhook) (n : String)
    (ext_vars : List (String × Json)) :
    started (SendEvent env (xs ++ ys) n ext_vars) =
      started (SendEvent env xs n ext_vars) ++ started (SendEvent env ys n ext_vars) := by
  simp [started_SendEvent, List.filterMap_append]

theorem mem_started_SendEvent (env : Env) (whs : List Webhook) (n : String)
    (ext_vars : List (String × Json)) (d : Op × RequestState) :
    d ∈ started (SendEvent env whs n ext_vars) ↔
      ∃ wh ∈ whs, deliveryFor env n (SendEvent_bind env n ext_vars).ext_vars wh = some d := by
  rw [started_SendEvent, List.mem_filterMap]

theorem deliveryFor_some (env : Env) (n : String) (ext : List (String × String)) (wh : Webhook)
    (d : Op × RequestState) (h : deliveryFor env n ext wh = some d) :
    wh.on_.contains n = true ∧ env.Uri_Parse wh.url = some d.2.m_uri ∧
      d.1 = Op.async_resolve d.2.m_uri.host (toString d.2.m_uri.port) ∧
      d.2.m_webhook = wh ∧ d.2.m_payload = renderedPayload env ext wh := by
  unfold deliveryFor at h
  by_cases hc : wh.on_.contains n = true
  · rw [if_pos hc] at h
    cases hu : env.Uri_Parse wh.url with
    | none => rw [hu] at h; cases h
    | some uri =>
      rw [hu] at h
      cases h
      exact ⟨hc, rfl, rfl, rfl, rfl⟩
  · rw [if_neg hc] at h; cases h

end Porla

namespace Porla

/-! ## Dispatch: claims C1 to C6 -/

/-- C1, counterexample: an endpoint subscribed to the event whose URL does not parse (here the
empty URL) gets no delivery, so membership of the event name in `on` alone does not start one. -/
theorem C1_counterexample :
    "e" ∈ (({ on_ := ["e"], url := "", headers := [], payload := none } : Webhook)).on_ ∧
      started (SendEvent sampleEnv [{ on_ := ["e"], url := "", headers := [], payload := none }]
        "e" []) = [] := by
  decide

/-- C1, as amended: the endpoints for which `SendEvent` starts a delivery are, in order and
each once, exactly the configured endpoints whose `on` set contains the event name and whose URL
parses; every delivery started is a DNS resolution of the host and port of the parsed URL of its
endpoint. -/
theorem C1_delivery_iff_subscribed_and_url_parses (env : Env) (m_webhooks : List Webhook)
    (eventName : String) (ext_vars : List (String × Json)) :
    (started (SendEvent env m_webhooks eventName ext_vars)).map (fun d => d.2.m_webhook) =
        m_webhooks.filter
          (fun wh => wh.on_.contains eventName && (env.Uri_Parse wh.url).isSome) ∧
      ∀ d ∈ started (SendEvent env m_webhooks eventName ext_vars),
        d.1 = Op.async_resolve d.2.m_uri.host (toString d.2.m_uri.port) ∧
          env.Uri_Parse d.2.m_webhook.url = some d.2.m_uri := by
  constructor
  · rw [started_SendEvent]
    induction m_webhooks with
    | nil => rfl
    | cons wh rest ih =>
      rw [List.filterMap_cons, List.filter_cons]
      cases h : deliveryFor env eventName (SendEvent_bind env eventName ext_vars).ext_vars wh with
      | none =>
        have hp : (wh.on_.contains eventName && (env.Uri_Parse wh.url).isSome) = false := by
          unfold deliveryFor at h
          by_cases hc : wh.on_.contains eventName = true
          · rw [if_pos hc] at h
            cases hu : env.Uri_Parse wh.url with
            | none => simp
            | some uri => rw [hu] at h; cases h
          · simp only [Bool.not_eq_true] at hc
            rw [hc]
            rfl
        simp only [hp, Bool.false_eq_true, if_false]
        exact ih
      | some d =>
        obtain ⟨hc, hu, _, hw, _⟩ := deliveryFor_some env eventName _ wh d h
        have hp : (wh.on_.contains eventName && (env.Uri_Parse wh.url).isSome) = true := by
          simp only [hc, hu, Option.isSome_some, Bool.and_self]
        simp only [hp, if_true, List.map_cons, hw]
        exact congrArg _ ih
  · intro d hd
    obtain ⟨wh, _, hwh⟩ := (mem_started_SendEvent env m_webhooks eventName ext_vars d).1 hd
    obtain ⟨_, hu, ho, hw, _⟩ := deliveryFor_some env eventName _ wh d hwh
    exact ⟨ho, by rw [hw]; exact hu⟩

/-- C1, witness: of three endpoints (subscribed, subscribed with an unparsable URL, not
subscribed) the first alone gets a delivery, a resolution of its host and port. -/
theorem C1_witness :
    ((Op.async_resolve "a" "81",
        ({ m_uri := { scheme := "http", host := "a", port := 81, path := "/x" }
           m_webhook := { on_ := ["e"], url := "http://a:81/x", headers := [], payload := none }
           m_payload := "" } : RequestState)) ∈
      started (SendEvent sampleEnv
        [{ on_ := ["e"], url := "http://a:81/x", headers := [], payload := none },
         { on_ := ["e"], url := "nowhere", headers := [], payload := none },
         { on_ := ["f"], url := "http://b/", headers := [], payload := none }] "e" [])) ∧
    sampleEnv.Uri_Parse "http://a:81/x" =
      some { scheme := "http", host := "a", port := 81, path := "/x" } :=
  ⟨by decide,
   ((C1_delivery_iff_subscribed_and_url_parses sampleEnv
      [{ on_ := ["e"], url := "http://a:81/x", headers := [], payload := none },
       { on_ := ["e"], url := "nowhere", headers := [], payload := none },
       { on_ := ["f"], url := "http://b/", headers := [], payload := none }] "e" []).2
      (Op.async_resolve "a" "81",
        { m_uri := { scheme := "http", host := "a", port := 81, path := "/x" }
          m_webhook := { on_ := ["e"], url := "http://a:81/x", headers := [], payload := none }
          m_payload := "" })
      (by decide)).2⟩

/-- C2, counterexample: a user header named `Content-Type` replaces the value
`application/json`, because `Content-Type` is set before the user headers are applied. -/
theorem C2_counterexample :
    Fields.values
      (buildRequest sampleEnv
        { m_uri := { scheme := "http", host := "a", port := 81, path := "/x" }
          m_webhook :=
            { on_ := ["e"], url := "http://a:81/x", headers := [("Content-Type", "text/plain")],
              payload := none }
          m_payload := "" }).fields field_content_type = ["text/plain"] := by
  decide

/-- C2, as amended: the request built by `SendRequest` has each of `Content-Type`, `Host` and
`User-Agent` exactly once. `Host` is `<host>:<port>` and `User-Agent` is `porla/1.0` whatever
the user headers are. `Content-Type` is `application/json` when no user header has that name
(names compared without regard to case); otherwise it is the value of the last user header of
that name, in the iteration order of the header map. -/
theorem C2_forced_headers (env : Env) (state : RequestState) :
    Fields.values (buildRequest env state).fields field_host =
        [state.m_uri.host ++ ":" ++ toString state.m_uri.port] ∧
      Fields.values (buildRequest env state).fields field_user_agent = ["porla/1.0"] ∧
      Fields.values (buildRequest env state).fields field_content_type =
        [match (state.m_webhook.headers.filter
            (fun kv => iequals kv.1 field_content_type)).getLast? with
          | some kv => kv.2
          | none => "application/json"] := by
  unfold buildRequest
  simp only
  refine ⟨?_, ?_, ?_⟩
  · rw [values_prepare_payload _ _ _ (by decide) (by decide)]
    simp only
    rw [values_set, if_neg (by decide), values_set, if_pos (by decide)]
  · rw [values_prepare_payload _ _ _ (by decide) (by decide)]
    simp only
    rw [values_set, if_pos (by decide)]
  · rw [values_prepare_payload _ _ _ (by decide) (by decide)]
    simp only
    rw [values_set, if_neg (by decide), values_set, if_neg (by decide), values_foldl_set,
      values_set, if_pos (by decide)]
    cases (state.m_webhook.headers.filter
      (fun kv => iequals kv.1 field_content_type)).getLast? <;> rfl

/-- C3, the code at the failing input: the endpoint is subscribed and its template fails to
evaluate; the failure is logged, and the delivery is started all the same, with an empty
payload, so that a GET request will be sent. -/
theorem C3_failed_render_still_delivered :
    sampleEnv.jsonnet_evaluate_snippet
        (SendEvent_bind sampleEnv "e" []).ext_vars "payload" "error" =
      Except.error "RUNTIME ERROR" ∧
    SendEvent sampleEnv
        [{ on_ := ["e"], url := "http://a:81/x", headers := [], payload := some "error" }] "e" [] =
      [Effect.log Severity.error "Failed to evaluate jsonnet snippet: RUNTIME ERROR",
       Effect.log Severity.debug "Calling webhook http://a:81/x",
       Effect.start (Op.async_resolve "a" "81")
         { m_uri := { scheme := "http", host := "a", port := 81, path := "/x" }
           m_webhook :=
             { on_ := ["e"], url := "http://a:81/x", headers := [], payload := some "error" }
           m_payload := "" }] ∧
    (buildRequest sampleEnv
        { m_uri := { scheme := "http", host := "a", port := 81, path := "/x" }
          m_webhook :=
            { on_ := ["e"], url := "http://a:81/x", headers := [], payload := some "error" }
          m_payload := "" }).method = Verb.get :=
  ⟨rfl, by decide, by decide⟩

end Porla

namespace Porla

theorem prepare_payload_method (f : String → String) (req : Request) :
    (prepare_payload f req).method = req.method := by
  unfold prepare_payload
  simp only
  split <;> rfl

theorem prepare_payload_body (f : String → String) (req : Request) :
    (prepare_payload f req).body = req.body := by
  unfold prepare_payload
  simp only
  split <;> rfl

theorem buildRequest_method (env : Env) (state : RequestState) :
    (buildRequest env state).method =
      if state.m_payload.isEmpty then Verb.get else Verb.post := by
  unfold buildRequest
  simp only
  rw [prepare_payload_method]

theorem buildRequest_body (env : Env) (state : RequestState) :
    (buildRequest env state).body = state.m_payload := by
  unfold buildRequest
  simp only
  rw [prepare_payload_body]

theorem SendRequest_eq (env : Env) (state : RequestState) :
    SendRequest env state =
      [Effect.start (Op.async_write (streamOf state) (buildRequest env state)) state] := by
  unfold SendRequest streamOf
  split <;> rfl

/-- C4: every delivery that `SendEvent` starts for an endpoint without a payload template has
an empty payload, and `SendRequest` on its state writes a request with method GET and an empty
body. -/
theorem C4_no_template_get_without_body (env : Env) (m_webhooks : List Webhook)
    (eventName : String) (ext_vars : List (String × Json)) (d : Op × RequestState)
    (hd : d ∈ started (SendEvent env m_webhooks eventName ext_vars))
    (hp : d.2.m_webhook.payload = none) :
    d.2.m_payload = "" ∧
      ∃ req, SendRequest env d.2 = [Effect.start (Op.async_write (streamOf d.2) req) d.2] ∧
        req.method = Verb.get ∧ req.body = "" := by
  obtain ⟨wh, _, hwh⟩ := (mem_started_SendEvent env m_webhooks eventName ext_vars d).1 hd
  obtain ⟨_, _, _, hw, hpay⟩ := deliveryFor_some env eventName _ wh d hwh
  have he : d.2.m_payload = "" := by
    rw [hpay]
    unfold renderedPayload
    rw [← hw, hp]
  refine ⟨he, buildRequest env d.2, SendRequest_eq env d.2, ?_, ?_⟩
  · rw [buildRequest_method, he]; rfl
  · rw [buildRequest_body, he]

/-- C4, witness: an endpoint without template, subscribed to `torrent_removed`. -/
theorem C4_witness :
    ({ m_uri := { scheme := "http", host := "a", port := 81, path := "/x" }
       m_webhook :=
         { on_ := ["torrent_removed"], url := "http://a:81/x", headers := [], payload := none }
       m_payload := "" } : RequestState).m_payload = "" ∧
      ∃ req,
        SendRequest sampleEnv
            { m_uri := { scheme := "http", host := "a", port := 81, path := "/x" }
              m_webhook :=
                { on_ := ["torrent_removed"], url := "http://a:81/x", headers := [],
                  payload := none }
              m_payload := "" } =
          [Effect.start (Op.async_write Stream.m_stream req)
            { m_uri := { scheme := "http", host := "a", port := 81, path := "/x" }
              m_webhook :=
                { on_ := ["torrent_removed"], url := "http://a:81/x", headers := [],
                  payload := none }
              m_payload := "" }] ∧
          req.method = Verb.get ∧ req.body = "" :=
  C4_no_template_get_without_body sampleEnv
    [{ on_ := ["torrent_removed"], url := "http://a:81/x", headers := [], payload := none }]
    "torrent_removed" []
    (Op.async_resolve "a" "81",
      { m_uri := { scheme := "http", host := "a", port := 81, path := "/x" }
        m_webhook :=
          { on_ := ["torrent_removed"], url := "http://a:81/x", headers := [], payload := none }
        m_payload := "" })
    (by decide) rfl

/-- C6: the deliveries started for a list of endpoints are those of the endpoints before `B`,
then those of `B` alone, then those of the endpoints after `B`: what is started for `B` does not
depend on any other endpoint `A` of the list, in particular not on whether the template of `A`
renders. And when `B` is subscribed, its URL parses to `uri` and its template is absent (then
`s` is empty) or renders to `s`, exactly one delivery is started for `B`, with that URI, the
endpoint (and so its headers) and the payload `s`. -/
theorem C6_render_failure_does_not_affect_others (env : Env) (xs ys : List Webhook)
    (B : Webhook) (eventName : String) (ext_vars : List (String × Json)) :
    started (SendEvent env (xs ++ B :: ys) eventName ext_vars) =
        started (SendEvent env xs eventName ext_vars) ++
          started (SendEvent env [B] eventName ext_vars) ++
          started (SendEvent env ys eventName ext_vars) ∧
      ∀ (uri : Uri) (s : String), eventName ∈ B.on_ → env.Uri_Parse B.url = some uri →
        ((B.payload = none ∧ s = "") ∨
          ∃ snippet, B.payload = some snippet ∧
            env.jsonnet_evaluate_snippet (SendEvent_bind env eventName ext_vars).ext_vars
              "payload" snippet = Except.ok s) →
        started (SendEvent env [B] eventName ext_vars) =
          [(Op.async_resolve uri.host (toString uri.port),
            { m_uri := uri, m_webhook := B, m_payload := s })] := by
  constructor
  · rw [started_SendEvent_append, List.append_assoc]
    congr 1
    exact started_SendEvent_append env [B] ys eventName ext_vars
  · intro uri s hon hu hr
    rw [started_SendEvent]
    have hc : B.on_.contains eventName = true := by simpa using hon
    have hs : renderedPayload env (SendEvent_bind env eventName ext_vars).ext_vars B = s := by
      unfold renderedPayload
      rcases hr with ⟨h1, h2⟩ | ⟨snippet, h1, h2⟩
      · rw [h1, h2]
      · rw [h1]
        simp only [h2]
    have hd : deliveryFor env eventName (SendEvent_bind env eventName ext_vars).ext_vars B =
        some (Op.async_resolve uri.host (toString uri.port),
          { m_uri := uri, m_webhook := B, m_payload := s }) := by
      unfold deliveryFor
      rw [if_pos hc, hu, hs]
    rw [List.filterMap_cons, hd]
    rfl

/-- C6, witness: `A`, listed first, has a template that fails to evaluate; `B` has one that
renders; the delivery for `B` is started with the rendered payload. -/
theorem C6_witness :
    started (SendEvent sampleEnv
        ([{ on_ := ["e"], url := "http://a/", headers := [], payload := some "error" }] ++
          { on_ := ["e"], url := "http://b/", headers := [("X-K", "v")], payload := some "p" }
            :: []) "e" []) =
      started (SendEvent sampleEnv
        [{ on_ := ["e"], url := "http://a/", headers := [], payload := some "error" }] "e" []) ++
        [(Op.async_resolve "b" "80",
          { m_uri := { scheme := "http", host := "b", port := 80, path := "/" }
            m_webhook :=
              { on_ := ["e"], url := "http://b/", headers := [("X-K", "v")], payload := some "p" }
            m_payload := "p" })] ++
        started (SendEvent sampleEnv [] "e" []) := by
  have h := C6_render_failure_does_not_affect_others sampleEnv
    [{ on_ := ["e"], url := "http://a/", headers := [], payload := some "error" }] []
    { on_ := ["e"], url := "http://b/", headers := [("X-K", "v")], payload := some "p" } "e" []
  rw [h.1, h.2 { scheme := "http", host := "b", port := 80, path := "/" } "p" (by decide)
    (by decide) (Or.inr ⟨"p", rfl, rfl⟩)]
  rfl

end Porla

namespace Porla

/-! ## The delivery pipeline: claims C7 to C9 -/

theorem run_of_no_pending (env : Env) (d : Delivery) (h : d.pending = none)
    (ecs : List ErrorCode) : Delivery.run env d ecs = [] := by
  induction ecs with
  | nil => rfl
  | cons ec ecs ih =>
    have e : d.step env ec = (d, []) := by
      unfold Delivery.step
      rw [h]
    rw [Delivery.run, e]
    exact ih

theorem started_complete_error (env : Env) (op : Op) (msg : String) (state : RequestState) :
    started (complete env op (some msg) state) = [] := by
  cases op <;> rfl

theorem step_error (env : Env) (d : Delivery) (msg : String) :
    started (d.step env (some msg)).2 = [] ∧ (d.step env (some msg)).1.pending = none := by
  unfold Delivery.step
  cases h : d.pending with
  | none => exact ⟨rfl, h⟩
  | some op =>
    simp only
    rw [started_complete_error]
    exact ⟨rfl, rfl⟩

/-- C7: when the resolution and every later stage complete without error (and, for `https`,
setting the SNI host name succeeds), the handlers start, in this order: the connect, then for
the scheme `https` the TLS handshake (after the SNI host name is set to the URI host), then the
write of the request, then the read of the response, and nothing after the read has completed.
The handshake is there exactly when the scheme is `https`, and the same test selects the stream
of the connect, the write and the read. -/
theorem C7_stage_order (env : Env) (state : RequestState) (host service : String) (k : Nat)
    (hsni : state.m_uri.scheme = "https" →
      env.SSL_set_tlsext_host_name state.m_uri.host = none) :
    Delivery.run env { state := state, pending := some (Op.async_resolve host service) }
        (List.replicate (k + 5) none) =
      if state.m_uri.scheme = "https" then
        [Effect.start (Op.async_connect Stream.m_ssl_stream) state,
         Effect.set_tlsext_host_name state.m_uri.host,
         Effect.start Op.async_handshake state,
         Effect.start (Op.async_write Stream.m_ssl_stream (buildRequest env state)) state,
         Effect.start (Op.async_read Stream.m_ssl_stream) state]
      else
        [Effect.start (Op.async_connect Stream.m_stream) state,
         Effect.start (Op.async_write Stream.m_stream (buildRequest env state)) state,
         Effect.start (Op.async_read Stream.m_stream) state] := by
  by_cases hs : state.m_uri.scheme = "https"
  · have h := hsni hs
    simp only [List.replicate_succ, Delivery.run, Delivery.step, complete, OnAsyncResolve,
      OnAsyncConnect, OnAsyncHandshake, OnAsyncWrite, OnAsyncRead, SendRequest, hs, h, if_true,
      started, List.map_cons, List.head?_cons, List.map_nil, List.append_nil]
    rw [run_of_no_pending env _ rfl]
    rfl
  · simp only [List.replicate_succ, Delivery.run, Delivery.step, complete, OnAsyncResolve,
      OnAsyncConnect, OnAsyncHandshake, OnAsyncWrite, OnAsyncRead, SendRequest, hs, if_false,
      started, List.map_cons, List.head?_cons, List.map_nil, List.append_nil]
    rw [run_of_no_pending env _ rfl]
    rfl

end Porla

namespace Porla

/-- C7, witness: a delivery to an `https` URL goes through connect, handshake, write and read,
all on the TLS stream. -/
theorem C7_witness :
    Delivery.run sampleEnv
        { state :=
            { m_uri := { scheme := "https", host := "a", port := 443, path := "/x" }
              m_webhook := { on_ := ["e"], url := "https://a/x", headers := [], payload := none }
              m_payload := "" }
          pending := some (Op.async_resolve "a" "443") }
        (List.replicate (0 + 5) none) =
      if ("https" : String) = "https" then
        [Effect.start (Op.async_connect Stream.m_ssl_stream)
          { m_uri := { scheme := "https", host := "a", port := 443, path := "/x" }
            m_webhook := { on_ := ["e"], url := "https://a/x", headers := [], payload := none }
            m_payload := "" },
         Effect.set_tlsext_host_name "a",
         Effect.start Op.async_handshake
          { m_uri := { scheme := "https", host := "a", port := 443, path := "/x" }
            m_webhook := { on_ := ["e"], url := "https://a/x", headers := [], payload := none }
            m_payload := "" },
         Effect.start (Op.async_write Stream.m_ssl_stream
            (buildRequest sampleEnv
              { m_uri := { scheme := "https", host := "a", port := 443, path := "/x" }
                m_webhook :=
                  { on_ := ["e"], url := "https://a/x", headers := [], payload := none }
                m_payload := "" }))
          { m_uri := { scheme := "https", host := "a", port := 443, path := "/x" }
            m_webhook := { on_ := ["e"], url := "https://a/x", headers := [], payload := none }
            m_payload := "" },
         Effect.start (Op.async_read Stream.m_ssl_stream)
          { m_uri := { scheme := "https", host := "a", port := 443, path := "/x" }
            m_webhook := { on_ := ["e"], url := "https://a/x", headers := [], payload := none }
            m_payload := "" }]
      else
        [Effect.start (Op.async_connect Stream.m_stream)
          { m_uri := { scheme := "https", host := "a", port := 443, path := "/x" }
            m_webhook := { on_ := ["e"], url := "https://a/x", headers := [], payload := none }
            m_payload := "" },
         Effect.start (Op.async_write Stream.m_stream
            (buildRequest sampleEnv
              { m_uri := { scheme := "https", host := "a", port := 443, path := "/x" }
                m_webhook :=
                  { on_ := ["e"], url := "https://a/x", headers := [], payload := none }
                m_payload := "" }))
          { m_uri := { scheme := "https", host := "a", port := 443, path := "/x" }
            m_webhook := { on_ := ["e"], url := "https://a/x", headers := [], payload := none }
            m_payload := "" },
         Effect.start (Op.async_read Stream.m_stream)
          { m_uri := { scheme := "https", host := "a", port := 443, path := "/x" }
            m_webhook := { on_ := ["e"], url := "https://a/x", headers := [], payload := none }
            m_payload := "" }] :=
  C7_stage_order sampleEnv
    { m_uri := { scheme := "https", host := "a", port := 443, path := "/x" }
      m_webhook := { on_ := ["e"], url := "https://a/x", headers := [], payload := none }
      m_payload := "" }
    "a" "443" 0 (fun _ => rfl)

/-- C8: a delivery whose pending operation completes with an error gets no new pending
operation: the handler starts nothing (no later stage, no write of the request, no retry) and
no later completion has any effect. The same holds when setting the SNI host name fails after a
successful connect, and after the read has completed, with or without error. -/
theorem C8_error_or_done_is_terminal (env : Env) (d : Delivery) (msg : String)
    (ec : ErrorCode) (s : Stream) (ecs : List ErrorCode) :
    (started (d.step env (some msg)).2 = [] ∧ (d.step env (some msg)).1.pending = none ∧
        Delivery.run env (d.step env (some msg)).1 ecs = []) ∧
      (d.state.m_uri.scheme = "https" →
        env.SSL_set_tlsext_host_name d.state.m_uri.host = some msg →
        started (OnAsyncConnect env none d.state) = [] ∧
          (Delivery.step env { state := d.state, pending := some (Op.async_connect s) }
            none).1.pending = none ∧
          Delivery.run env { state := d.state, pending := some (Op.async_connect s) }
            (none :: ecs) =
            [Effect.set_tlsext_host_name d.state.m_uri.host,
             Effect.log Severity.error ("Failed to set tlsext hostname: " ++ msg)]) ∧
      (started (OnAsyncRead ec d.state) = [] ∧
        (Delivery.step env { state := d.state, pending := some (Op.async_read s) }
          ec).1.pending = none ∧
        Delivery.run env { state := d.state, pending := some (Op.async_read s) } (ec :: ecs) =
          OnAsyncRead ec d.state) := by
  refine ⟨⟨(step_error env d msg).1, (step_error env d msg).2, ?_⟩, ?_, ?_⟩
  · exact run_of_no_pending env _ (step_error env d msg).2 ecs
  · intro hs hsni
    have e : OnAsyncConnect env none d.state =
        [Effect.set_tlsext_host_name d.state.m_uri.host,
         Effect.log Severity.error ("Failed to set tlsext hostname: " ++ msg)] := by
      simp only [OnAsyncConnect, hs, hsni, if_true]
    have hp : (Delivery.step env { state := d.state, pending := some (Op.async_connect s) }
        none).1.pending = none := by
      simp only [Delivery.step, complete, e, started, List.map_nil, List.head?_nil]
    refine ⟨by rw [e]; rfl, hp, ?_⟩
    rw [Delivery.run, run_of_no_pending env _ hp]
    simp only [Delivery.step, complete, e, List.append_nil]
  · have e : started (OnAsyncRead ec d.state) = [] := by
      cases ec <;> rfl
    have hp : (Delivery.step env { state := d.state, pending := some (Op.async_read s) }
        ec).1.pending = none := by
      simp only [Delivery.step, complete, e, List.map_nil, List.head?_nil]
    refine ⟨e, hp, ?_⟩
    rw [Delivery.run, run_of_no_pending env _ hp]
    simp only [Delivery.step, complete, List.append_nil]

/-- C8, witness: setting the SNI host name fails for an `https` delivery after the connect;
nothing is started and later completions have no effect. -/
theorem C8_witness :
    Delivery.run
        { Uri_Parse := Uri.Parse, jsonnet_init := none, jsonnet_evaluate_snippet := sampleEvaluate,
          json_dump := sampleDump, SSL_set_tlsext_host_name := fun _ => some "ssl error",
          filter_chunked := fun v => v }
        { state :=
            { m_uri := { scheme := "https", host := "a", port := 443, path := "/x" }
              m_webhook := { on_ := ["e"], url := "https://a/x", headers := [], payload := none }
              m_payload := "" }
          pending := some (Op.async_connect Stream.m_ssl_stream) }
        (none :: [none, none]) =
      [Effect.set_tlsext_host_name "a",
       Effect.log Severity.error ("Failed to set tlsext hostname: " ++ "ssl error")] :=
  ((C8_error_or_done_is_terminal
      { Uri_Parse := Uri.Parse, jsonnet_init := none, jsonnet_evaluate_snippet := sampleEvaluate,
        json_dump := sampleDump, SSL_set_tlsext_host_name := fun _ => some "ssl error",
        filter_chunked := fun v => v }
      { state :=
          { m_uri := { scheme := "https", host := "a", port := 443, path := "/x" }
            m_webhook := { on_ := ["e"], url := "https://a/x", headers := [], payload := none }
            m_payload := "" }
        pending := some (Op.async_connect Stream.m_ssl_stream) }
      "ssl error" none Stream.m_ssl_stream [none, none]).2.1 rfl rfl).2.2

end Porla

namespace Porla

/-! ## `Config::Load`: claim C10 -/

theorem mem_set_insert (s : List String) (a x : String) :
    x ∈ set_insert s a ↔ x ∈ s ∨ x = a := by
  induction s with
  | nil => simp [set_insert]
  | cons y rest ih =>
    unfold set_insert
    split
    · simp only [List.mem_cons]
      tauto
    · split
      · next h =>
        simp only [List.mem_cons]
        constructor
        · intro hx; exact Or.inl hx
        · rintro (hx | hx)
          · exact hx
          · exact Or.inl (hx.trans h)
      · simp only [List.mem_cons, ih]
        tauto

theorem mem_map_insert_of_mem (m : List (String × String)) (k v : String)
    (p : String × String) (hp : p ∈ m) : p ∈ map_insert m k v := by
  induction m with
  | nil => cases hp
  | cons q rest ih =>
    obtain ⟨k1, v1⟩ := q
    unfold map_insert
    split
    · exact List.mem_cons_of_mem _ hp
    · split
      · exact hp
      · rcases List.mem_cons.1 hp with h | h
        · rw [h]; exact List.mem_cons_self _ _
        · exact List.mem_cons_of_mem _ (ih h)

theorem mem_map_insert (m : List (String × String)) (k v : String) (p : String × String)
    (hp : p ∈ map_insert m k v) : p ∈ m ∨ p = (k, v) := by
  induction m with
  | nil =>
    simp only [map_insert, List.mem_singleton] at hp
    exact Or.inr hp
  | cons q rest ih =>
    obtain ⟨k1, v1⟩ := q
    unfold map_insert at hp
    split at hp
    · rcases List.mem_cons.1 hp with h | h
      · exact Or.inr h
      · exact Or.inl h
    · split at hp
      · exact Or.inl hp
      · rcases List.mem_cons.1 hp with h | h
        · rw [h]; exact Or.inl (List.mem_cons_self _ _)
        · rcases ih h with h1 | h1
          · exact Or.inl (List.mem_cons_of_mem _ h1)
          · exact Or.inr h1

theorem key_mem_map_insert (m : List (String × String)) (k v : String) :
    ∃ v1, (k, v1) ∈ map_insert m k v := by
  induction m with
  | nil => exact ⟨v, by simp [map_insert]⟩
  | cons q rest ih =>
    obtain ⟨k1, v1⟩ := q
    unfold map_insert
    split
    · exact ⟨v, List.mem_cons_self _ _⟩
    · split
      · next h => exact ⟨v1, by rw [h]; exact List.mem_cons_self _ _⟩
      · obtain ⟨v2, h2⟩ := ih
        exact ⟨v2, List.mem_cons_of_mem _ h2⟩

theorem mem_foldl_on (xs : List Toml) (s : List String) (name : String) :
    name ∈ xs.foldl
        (fun (s : List String) (event_name : Toml) =>
          match Toml.value_string (some event_name) with
          | some event_name_str => set_insert s event_name_str
          | none => s) s ↔
      name ∈ s ∨ Toml.string name ∈ xs := by
  induction xs generalizing s with
  | nil => simp
  | cons x rest ih =>
    rw [List.foldl_cons, ih]
    cases x with
    | string t =>
      simp only [Toml.value_string, mem_set_insert, List.mem_cons, Toml.string.injEq]
      tauto
    | integer n => simp [Toml.value_string]
    | boolean b => simp [Toml.value_string]
    | array ys => simp [Toml.value_string]
    | table kvs => simp [Toml.value_string]

end Porla

namespace Porla

theorem loadHeaders_defined (hs : List Toml) (h0 : List (String × String))
    (hd : hs.all headerItemDefined = true) :
    ∃ h logs, loadHeaders hs h0 = Except.ok (h, logs) ∧
      (∀ p ∈ h0, p ∈ h) ∧
      (∀ p ∈ h, p ∈ h0 ∨ Toml.table [(p.1, Toml.string p.2)] ∈ hs) ∧
      (∀ k v, Toml.table [(k, Toml.string v)] ∈ hs → ∃ v1, (k, v1) ∈ h) ∧
      logs.all isWarning = true ∧ logs.length = (hs.filter headerItemSkipped).length := by
  induction hs generalizing h0 with
  | nil =>
    refine ⟨h0, [], rfl, fun p hp => hp, fun p hp => Or.inl hp, ?_, rfl, rfl⟩
    intro k v hk
    cases hk
  | cons item rest ih =>
    rw [List.all_cons, Bool.and_eq_true] at hd
    obtain ⟨hitem, hrest⟩ := hd
    have skip : ∀ msg : String, Toml.as_table item = none ∨
        (∃ tbl, item = Toml.table tbl ∧ tbl.length ≠ 1) →
        (∃ h logs,
          (match loadHeaders rest h0 with
            | Except.error e => (Except.error e : Except String _)
            | Except.ok (h, logs) => Except.ok (h, Effect.log Severity.warning msg :: logs)) =
            Except.ok (h, logs) ∧
          (∀ p ∈ h0, p ∈ h) ∧
          (∀ p ∈ h, p ∈ h0 ∨ Toml.table [(p.1, Toml.string p.2)] ∈ item :: rest) ∧
          (∀ k v, Toml.table [(k, Toml.string v)] ∈ item :: rest → ∃ v1, (k, v1) ∈ h) ∧
          logs.all isWarning = true ∧
          logs.length = ((item :: rest).filter headerItemSkipped).length) := by
      intro msg hcase
      obtain ⟨h, logs, e, a1, a2, a3, a4, a5⟩ := ih h0 hrest
      have hsk : headerItemSkipped item = true := by
        rcases hcase with hc | ⟨tbl, ht, hl⟩
        · unfold headerItemSkipped
          rw [hc]
        · rw [ht]
          unfold headerItemSkipped
          simp only [Toml.as_table]
          exact decide_eq_true hl
      refine ⟨h, Effect.log Severity.warning msg :: logs, by rw [e], a1, ?_, ?_, ?_, ?_⟩
      · intro p hp
        rcases a2 p hp with h1 | h1
        · exact Or.inl h1
        · exact Or.inr (List.mem_cons_of_mem _ h1)
      · intro k v hk
        rcases List.mem_cons.1 hk with h1 | h1
        · exfalso
          rcases hcase with hc | ⟨tbl, ht, hl⟩
          · rw [← h1] at hc
            cases hc
          · rw [ht] at h1
            injection h1 with h2
            rw [← h2] at hl
            exact hl rfl
        · exact a3 k v h1
      · rw [List.all_cons, a4]
        rfl
      · rw [List.filter_cons_of_pos hsk, List.length_cons, List.length_cons, a5]
    cases item with
    | string t => exact skip _ (Or.inl rfl)
    | integer n => exact skip _ (Or.inl rfl)
    | boolean b => exact skip _ (Or.inl rfl)
    | array ys => exact skip _ (Or.inl rfl)
    | table tbl =>
      by_cases hl : tbl.length ≠ 1
      · have := skip "Webhook header item should only have a single value"
          (Or.inr ⟨tbl, rfl, hl⟩)
        unfold loadHeaders
        simp only [Toml.as_table]
        rw [if_pos hl]
        exact this
      · have hl1 : tbl.length = 1 := by
          by_contra hne
          exact hl hne
        match tbl, hl1 with
        | [(k, x)], _ =>
          cases x with
          | string v =>
            obtain ⟨h, logs, e, a1, a2, a3, a4, a5⟩ := ih (map_insert h0 k v) hrest
            have hns : headerItemSkipped (Toml.table [(k, Toml.string v)]) = false := by
              simp [headerItemSkipped, Toml.as_table]
            refine ⟨h, logs, ?_, ?_, ?_, ?_, a4,
              by rw [List.filter_cons_of_neg (by rw [hns]; decide)]; exact a5⟩
            · unfold loadHeaders
              simp only [Toml.as_table, List.length_singleton, ne_eq, not_true_eq_false,
                if_false, List.head?_cons]
              exact e
            · intro p hp
              exact a1 p (mem_map_insert_of_mem h0 k v p hp)
            · intro p hp
              rcases a2 p hp with h1 | h1
              · rcases mem_map_insert h0 k v p h1 with h2 | h2
                · exact Or.inl h2
                · rw [h2]
                  exact Or.inr (List.mem_cons_self _ _)
              · exact Or.inr (List.mem_cons_of_mem _ h1)
            · intro k1 v1 hk
              rcases List.mem_cons.1 hk with h1 | h1
              · injection h1 with h2
                injection h2 with h3 _
                injection h3 with h4 _
                obtain ⟨v2, hv2⟩ := key_mem_map_insert h0 k v
                exact ⟨v2, by rw [h4]; exact a1 _ hv2⟩
              · exact a3 k1 v1 h1
          | integer n => simp [headerItemDefined, Toml.as_table] at hitem
          | boolean b => simp [headerItemDefined, Toml.as_table] at hitem
          | array ys => simp [headerItemDefined, Toml.as_table] at hitem
          | table kvs => simp [headerItemDefined, Toml.as_table] at hitem

end Porla

namespace Porla

theorem mem_loadOn (wh_tbl : List (String × Toml)) (name : String) :
    name ∈ loadOn wh_tbl [] ↔
      (Toml.lookup wh_tbl "on" = some (Toml.string name) ∨
        ∃ xs, Toml.lookup wh_tbl "on" = some (Toml.array xs) ∧ Toml.string name ∈ xs) := by
  unfold loadOn
  cases hon : Toml.lookup wh_tbl "on" with
  | none => simp [Toml.value_string, Toml.as_array]
  | some t =>
    cases t with
    | string s =>
      simp only [Toml.value_string, Toml.as_array, mem_set_insert, Option.some.injEq,
        Toml.string.injEq]
      constructor
      · rintro (h | h)
        · cases h
        · exact Or.inl h.symm
      · rintro (h | ⟨xs, h, _⟩)
        · exact Or.inr h.symm
        · cases h
    | integer n => simp [Toml.value_string, Toml.as_array]
    | boolean b => simp [Toml.value_string, Toml.as_array]
    | array ys =>
      have e1 : Toml.value_string (some (Toml.array ys)) = none := rfl
      simp only [e1, Toml.as_array]
      rw [mem_foldl_on]
      constructor
      · rintro (h | h)
        · cases h
        · exact Or.inr ⟨ys, rfl, h⟩
      · rintro (h | ⟨xs, h, hx⟩)
        · cases h
        · injection h with h1
          injection h1 with h2
          rw [h2]
          exact Or.inr hx
    | table kvs => simp [Toml.value_string, Toml.as_array]

theorem loadWebhook_defined (wh : Toml) (hd : entryDefined wh = true) :
    ∃ hook logs, loadWebhook wh = Except.ok (hook, logs) ∧ EntryLoadedAs wh hook ∧
      logs.all isWarning = true ∧ logs.length = skippedHeaderItems wh := by
  unfold entryDefined at hd
  cases wh with
  | string t => cases hd
  | integer n => cases hd
  | boolean b => cases hd
  | array ys => cases hd
  | table wh_tbl =>
    simp only [Toml.as_table, Bool.and_eq_true] at hd
    obtain ⟨hurl, hhead⟩ := hd
    cases hu : Toml.value_string (Toml.lookup wh_tbl "url") with
    | none => rw [hu] at hurl; cases hurl
    | some url =>
      cases hh : Toml.as_array (Toml.lookup wh_tbl "headers") with
      | none =>
        have hno : ∀ hs, Toml.lookup wh_tbl "headers" ≠ some (Toml.array hs) := by
          intro hs e
          rw [e] at hh
          cases hh
        refine ⟨{ on_ := loadOn wh_tbl [], url := url, headers := [],
                  payload := Toml.value_string (Toml.lookup wh_tbl "payload") }, [], ?_, ?_, rfl,
                by simp only [skippedHeaderItems, Toml.as_table, hh, List.length_nil]⟩
        · unfold loadWebhook
          simp only [Toml.as_table, hu, hh]
          cases Toml.value_string (Toml.lookup wh_tbl "payload") <;> rfl
        · refine ⟨wh_tbl, rfl, hu, rfl, mem_loadOn wh_tbl, ?_, ?_⟩
          · intro key value hk
            cases hk
          · intro key value hs e
            exact absurd e (hno hs)
      | some headers_array =>
        have hl : Toml.lookup wh_tbl "headers" = some (Toml.array headers_array) := by
          cases hlk : Toml.lookup wh_tbl "headers" with
          | none => rw [hlk] at hh; cases hh
          | some t =>
            rw [hlk] at hh
            cases t with
            | string s => cases hh
            | integer n => cases hh
            | boolean b => cases hh
            | table kvs => cases hh
            | array ys =>
              simp only [Toml.as_array, Option.some.injEq] at hh
              rw [hh]
        rw [hh] at hhead
        obtain ⟨h, logs, e, _, a2, a3, a4, a5⟩ := loadHeaders_defined headers_array [] hhead
        refine ⟨{ on_ := loadOn wh_tbl [], url := url, headers := h,
                  payload := Toml.value_string (Toml.lookup wh_tbl "payload") }, logs, ?_, ?_, a4,
                by simp only [skippedHeaderItems, Toml.as_table, hh, a5]⟩
        · unfold loadWebhook
          simp only [Toml.as_table, hu, hh, e]
          cases Toml.value_string (Toml.lookup wh_tbl "payload") <;> rfl
        · refine ⟨wh_tbl, rfl, hu, rfl, mem_loadOn wh_tbl, ?_, ?_⟩
          · intro key value hk
            rcases a2 (key, value) hk with h1 | h1
            · cases h1
            · exact ⟨headers_array, hl, h1⟩
          · intro key value hs e1 hk
            rw [hl] at e1
            injection e1 with e2
            injection e2 with e3
            rw [← e3] at hk
            exact a3 key value hk

theorem loadWebhooks_defined (arr : List Toml) (acc : List Webhook)
    (hd : ∀ wh ∈ arr, entryDefined wh = true) :
    ∃ hooks logs, loadWebhooks arr acc = Except.ok (acc ++ hooks, logs) ∧
      List.Forall₂ EntryLoadedAs arr hooks ∧ logs.all isWarning = true ∧
      logs.length = (arr.map skippedHeaderItems).sum := by
  induction arr generalizing acc with
  | nil => exact ⟨[], [], by simp [loadWebhooks], List.Forall₂.nil, rfl, rfl⟩
  | cons wh rest ih =>
    obtain ⟨hook, logs, e, hl, hw, hn⟩ :=
      loadWebhook_defined wh (hd wh (List.mem_cons_self _ _))
    obtain ⟨hooks, logs1, e1, hl1, hw1, hn1⟩ :=
      ih (acc ++ [hook]) (fun w hw => hd w (List.mem_cons_of_mem _ hw))
    refine ⟨hook :: hooks, logs ++ logs1, ?_, List.Forall₂.cons hl hl1, ?_, ?_⟩
    · unfold loadWebhooks
      simp only [e, e1, List.append_assoc, List.singleton_append]
    · rw [List.all_append, hw, hw1]
      rfl
    · rw [List.length_append, hn, hn1, List.map_cons, List.sum_cons]

/-- C10, counterexample: an entry with a header item that is not a table is not skipped; it is
loaded into `cfg->webhooks` (without that header, with a warning). -/
theorem C10_counterexample :
    Config_Load_webhooks
        [("webhooks", Toml.array
          [Toml.table
            [("headers", Toml.array [Toml.string "X-Key: 1"]),
             ("on", Toml.string "torrent_added"),
             ("url", Toml.string "http://a/")]])] =
      Except.ok
        ([{ on_ := ["torrent_added"], url := "http://a/", headers := [], payload := none }],
         [Effect.log Severity.warning "Webhook header item is not a TOML table"]) :=
  rfl

/-- C10, as amended: when every entry of the `webhooks` array is a table with a string `url`
(and every header item that is a single-key table has a string value), `Config::Load` loads
every entry, in array order, into `cfg->webhooks`, none being skipped: the i-th webhook has the
url, payload and event names of the i-th entry and the headers of its single-key header items.
A header item that is not a table, or is a table without exactly one key, is passed over with
one warning each, and its entry is loaded all the same; nothing else is logged. -/
theorem C10_entries_loaded_in_order (config_file_tbl : List (String × Toml))
    (webhooks_array : List Toml)
    (ha : Toml.lookup config_file_tbl "webhooks" = some (Toml.array webhooks_array))
    (hd : ∀ wh ∈ webhooks_array, entryDefined wh = true) :
    ∃ hooks logs, Config_Load_webhooks config_file_tbl = Except.ok (hooks, logs) ∧
      List.Forall₂ EntryLoadedAs webhooks_array hooks ∧
      logs.all isWarning = true ∧
      logs.length = (webhooks_array.map skippedHeaderItems).sum := by
  obtain ⟨hooks, logs, e, h1, h2, h3⟩ := loadWebhooks_defined webhooks_array [] hd
  refine ⟨hooks, logs, ?_, h1, h2, h3⟩
  unfold Config_Load_webhooks
  rw [ha]
  simp only [Toml.as_array]
  rw [e, List.nil_append]

/-- C10, witness: two entries, the first with a header item that is not a table; both are
loaded, in order, with one warning. -/
theorem C10_witness :
    ∃ hooks logs,
      Config_Load_webhooks
          [("webhooks", Toml.array
            [Toml.table
              [("headers", Toml.array [Toml.string "X-Key: 1",
                  Toml.table [("X-Key", Toml.string "1")]]),
               ("on", Toml.string "torrent_added"),
               ("url", Toml.string "http://a/")],
             Toml.table
              [("on", Toml.array [Toml.string "torrent_paused", Toml.string "torrent_added"]),
               ("payload", Toml.string "{}"),
               ("url", Toml.string "https://b/hook")]])] =
        Except.ok (hooks, logs) ∧
      List.Forall₂ EntryLoadedAs
        [Toml.table
          [("headers", Toml.array [Toml.string "X-Key: 1",
              Toml.table [("X-Key", Toml.string "1")]]),
           ("on", Toml.string "torrent_added"),
           ("url", Toml.string "http://a/")],
         Toml.table
          [("on", Toml.array [Toml.string "torrent_paused", Toml.string "torrent_added"]),
           ("payload", Toml.string "{}"),
           ("url", Toml.string "https://b/hook")]] hooks ∧
      logs.all isWarning = true ∧
      logs.length =
        (([Toml.table
          [("headers", Toml.array [Toml.string "X-Key: 1",
              Toml.table [("X-Key", Toml.string "1")]]),
           ("on", Toml.string "torrent_added"),
           ("url", Toml.string "http://a/")],
         Toml.table
          [("on", Toml.array [Toml.string "torrent_paused", Toml.string "torrent_added"]),
           ("payload", Toml.string "{}"),
           ("url", Toml.string "https://b/hook")]] : List Toml).map skippedHeaderItems).sum :=
  C10_entries_loaded_in_order _ _ rfl (by
    intro wh hwh
    simp only [List.mem_cons, List.mem_singleton, List.not_mem_nil, or_false] at hwh
    rcases hwh with h | h <;> rw [h] <;> rfl)

end Porla

namespace Porla

/-! ## The bound variables: claim C11 -/

theorem find_filter_ne (l : List (String × String)) (k key : String) (h : key ≠ k) :
    (l.filter (fun p => p.1 != k)).find? (fun p => p.1 == key) =
      l.find? (fun p => p.1 == key) := by
  induction l with
  | nil => rfl
  | cons p rest ih =>
    by_cases hp : p.1 = k
    · have e1 : List.filter (fun p : String × String => p.1 != k) (p :: rest) =
          List.filter (fun p : String × String => p.1 != k) rest := by
        simp [List.filter_cons, hp]
      have e2 : (p.1 == key) = false := by
        rw [hp]
        simp [Ne.symm h]
      rw [e1, List.find?_cons, e2]
      exact ih
    · have e1 : List.filter (fun p : String × String => p.1 != k) (p :: rest) =
          p :: List.filter (fun p : String × String => p.1 != k) rest := by
        simp [List.filter_cons, hp]
      rw [e1, List.find?_cons, List.find?_cons, ih]

theorem extVar_bind (jn : Jsonnet) (k v key : String) :
    (jn.bindExtCodeVar k v).extVar key = if key = k then some v else jn.extVar key := by
  unfold Jsonnet.extVar Jsonnet.bindExtCodeVar
  by_cases h : key = k
  · rw [if_pos h, h]
    simp
  · rw [if_neg h]
    simp only
    have e2 : (k == key) = false := by simp [Ne.symm h]
    rw [List.find?_cons, e2, find_filter_ne _ _ _ h]

theorem extVar_foldl_bind (dump : Json → String) (kvs : List (String × Json)) (jn : Jsonnet)
    (key : String) :
    (kvs.foldl
        (fun (jn : Jsonnet) (kv : String × Json) => jn.bindExtCodeVar kv.1 (dump kv.2))
        jn).extVar key =
      match (kvs.filter (fun kv => kv.1 == key)).getLast? with
      | some kv => some (dump kv.2)
      | none => jn.extVar key := by
  induction kvs generalizing jn with
  | nil => rfl
  | cons h rest ih =>
    rw [List.foldl_cons, ih, extVar_bind]
    by_cases hk : key = h.1
    · have e : List.filter (fun kv : String × Json => kv.1 == key) (h :: rest) =
          h :: List.filter (fun kv : String × Json => kv.1 == key) rest := by
        simp [List.filter_cons, hk]
      rw [e, if_pos hk]
      cases hl : List.filter (fun kv : String × Json => kv.1 == key) rest with
      | nil => rfl
      | cons x xs =>
        rw [List.getLast?_cons_cons, List.getLast?_eq_getLast _ (List.cons_ne_nil x xs)]
    · have e : List.filter (fun kv : String × Json => kv.1 == key) (h :: rest) =
          List.filter (fun kv : String × Json => kv.1 == key) rest := by
        simp [List.filter_cons, Ne.symm hk]
      rw [e, if_neg hk]

end Porla

namespace Porla

theorem filter_key_of_pairwise (l : List (String × Json)) (key : String) (value : Json)
    (hp : l.Pairwise (fun a b => a.1 ≠ b.1)) (hm : (key, value) ∈ l) :
    l.filter (fun kv => kv.1 == key) = [(key, value)] := by
  induction l with
  | nil => cases hm
  | cons h rest ih =>
    rw [List.pairwise_cons] at hp
    obtain ⟨hh, hrest⟩ := hp
    rcases List.mem_cons.1 hm with e | e
    · have e1 : List.filter (fun kv : String × Json => kv.1 == key) (h :: rest) =
          h :: List.filter (fun kv : String × Json => kv.1 == key) rest := by
        simp [List.filter_cons, ← e]
      have e2 : List.filter (fun kv : String × Json => kv.1 == key) rest = [] := by
        rw [List.filter_eq_nil_iff]
        intro a ha hk
        have := hh a ha
        rw [← e] at this
        simp only [beq_iff_eq] at hk
        exact this hk.symm
      rw [e1, e2, e]
    · have hne : h.1 ≠ key := hh (key, value) e
      have e1 : List.filter (fun kv : String × Json => kv.1 == key) (h :: rest) =
          List.filter (fun kv : String × Json => kv.1 == key) rest := by
        simp [List.filter_cons, hne]
      rw [e1]
      exact ih hrest e

/-- C11: the variables bound when the templates are evaluated are the event fields and
`event_name`. `event_name` is bound to the serialisation of the event name as a JSON string,
also when a field has that name; every other name is bound to the serialisation of the value of
the field of that name (the last one, should the list of fields repeat a name) and is unbound
when there is no such field; for a map of fields, whose keys are distinct, every field other
than `event_name` is bound to the serialisation of its value. Every delivery started carries
the payload rendered with exactly these bindings. -/
theorem C11_bound_variables (env : Env) (m_webhooks : List Webhook) (eventName : String)
    (ext_vars : List (String × Json)) :
    (SendEvent_bind env eventName ext_vars).extVar "event_name" =
        some (env.json_dump (Json.string eventName)) ∧
      (∀ key, key ≠ "event_name" →
        (SendEvent_bind env eventName ext_vars).extVar key =
          ((ext_vars.filter (fun kv => kv.1 == key)).getLast?).map
            (fun kv => env.json_dump kv.2)) ∧
      (ext_vars.Pairwise (fun a b => a.1 ≠ b.1) →
        ∀ key value, (key, value) ∈ ext_vars → key ≠ "event_name" →
          (SendEvent_bind env eventName ext_vars).extVar key = some (env.json_dump value)) ∧
      ∀ d ∈ started (SendEvent env m_webhooks eventName ext_vars),
        d.2.m_payload =
          renderedPayload env (SendEvent_bind env eventName ext_vars).ext_vars d.2.m_webhook := by
  have key_ne : ∀ key, key ≠ "event_name" →
      (SendEvent_bind env eventName ext_vars).extVar key =
        ((ext_vars.filter (fun kv => kv.1 == key)).getLast?).map
          (fun kv => env.json_dump kv.2) := by
    intro key hk
    unfold SendEvent_bind
    simp only
    rw [extVar_bind, if_neg hk, extVar_foldl_bind]
    cases (ext_vars.filter (fun kv => kv.1 == key)).getLast? <;> rfl
  refine ⟨?_, key_ne, ?_, ?_⟩
  · unfold SendEvent_bind
    simp only
    rw [extVar_bind, if_pos rfl]
  · intro hp key value hm hk
    rw [key_ne key hk, filter_key_of_pairwise ext_vars key value hp hm]
    rfl
  · intro d hd
    obtain ⟨wh, _, hwh⟩ := (mem_started_SendEvent env m_webhooks eventName ext_vars d).1 hd
    obtain ⟨_, _, _, hw, hpay⟩ := deliveryFor_some env eventName _ wh d hwh
    rw [hpay, hw]

/-- C11, witness: the fields are `event_name` (a spoofed value) and `torrent`; `event_name` is
bound to the serialised event name and `torrent` to the serialisation of its value. -/
theorem C11_witness :
    (SendEvent_bind sampleEnv "torrent_added"
        [("event_name", Json.string "spoofed"), ("torrent", Json.null)]).extVar "event_name" =
      some (sampleEnv.json_dump (Json.string "torrent_added")) ∧
    (SendEvent_bind sampleEnv "torrent_added"
        [("event_name", Json.string "spoofed"), ("torrent", Json.null)]).extVar "torrent" =
      some (sampleEnv.json_dump Json.null) :=
  ⟨(C11_bound_variables sampleEnv [] "torrent_added"
      [("event_name", Json.string "spoofed"), ("torrent", Json.null)]).1,
   (C11_bound_variables sampleEnv [] "torrent_added"
      [("event_name", Json.string "spoofed"), ("torrent", Json.null)]).2.2.1
    (by simp) "torrent" Json.null (List.mem_cons_of_mem _ (List.mem_cons_self _ _))
    (by decide)⟩

end Porla

namespace Porla

/-! ## The lifecycle events: claim C12 -/

/-- C12: each lifecycle handler publishes the event name of its row with the single field
`torrent`. For `torrent_added`, `torrent_finished`, `torrent_paused` and `torrent_resumed` the
`torrent` value is an object with exactly the keys `info_hash`, `name`, `progress`,
`save_path`, `total`, `total_done`, `total_wanted`, each holding the member of that name of the
torrent status (`info_hash` the converted `info_hashes`); for `torrent_removed` it is an object
with the one key `info_hash`, holding the converted info hash. -/
theorem C12_lifecycle_event_fields (env : Env) (ih_json : info_hash_t → Json)
    (m_webhooks : List Webhook) (ts : torrent_status) (ih : info_hash_t) :
    (∃ torrent,
      OnTorrentAdded env ih_json m_webhooks ts =
          SendEvent env m_webhooks "torrent_added" [("torrent", torrent)] ∧
        OnTorrentFinished env ih_json m_webhooks ts =
          SendEvent env m_webhooks "torrent_finished" [("torrent", torrent)] ∧
        OnTorrentPaused env ih_json m_webhooks ts =
          SendEvent env m_webhooks "torrent_paused" [("torrent", torrent)] ∧
        OnTorrentResumed env ih_json m_webhooks ts =
          SendEvent env m_webhooks "torrent_resumed" [("torrent", torrent)] ∧
        torrent.keys =
          ["info_hash", "name", "progress", "save_path", "total", "total_done",
            "total_wanted"] ∧
        torrent.member "info_hash" = some (ih_json ts.info_hashes) ∧
        torrent.member "name" = some (Json.string ts.name) ∧
        torrent.member "progress" = some (Json.number_float ts.progress) ∧
        torrent.member "save_path" = some (Json.string ts.save_path) ∧
        torrent.member "total" = some (Json.number_integer ts.total) ∧
        torrent.member "total_done" = some (Json.number_integer ts.total_done) ∧
        torrent.member "total_wanted" = some (Json.number_integer ts.total_wanted)) ∧
      ∃ torrent,
        OnTorrentRemoved env ih_json m_webhooks ih =
            SendEvent env m_webhooks "torrent_removed" [("torrent", torrent)] ∧
          torrent.keys = ["info_hash"] ∧
          torrent.member "info_hash" = some (ih_json ih) := by
  refine ⟨⟨to_json ih_json ts, rfl, rfl, rfl, rfl, rfl, ?_, ?_, ?_, ?_, ?_, ?_, ?_⟩,
    ⟨Json.object [("info_hash", ih_json ih)], rfl, rfl, ?_⟩⟩ <;>
    simp [Json.member, to_json, List.find?_cons]

end Porla

namespace Porla

/-! ## An endpoint whose URL does not parse: claim C13 -/

theorem body_effects_congr (env : Env) (n : String) (jn jn1 : Jsonnet) (wh : Webhook)
    (h : jn.ext_vars = jn1.ext_vars) :
    (SendEvent_body env n jn wh).2 = (SendEvent_body env n jn1 wh).2 := by
  unfold SendEvent_body
  split
  · rfl
  · cases hp : wh.payload with
    | none => cases hu : env.Uri_Parse wh.url <;> rfl
    | some snippet =>
      simp only [Jsonnet.evaluateSnippet, ← h]
      cases he : env.jsonnet_evaluate_snippet jn.ext_vars "payload" snippet <;>
        cases hu : env.Uri_Parse wh.url <;> rfl

theorem loop_congr (env : Env) (n : String) (jn jn1 : Jsonnet) (whs : List Webhook)
    (h : jn.ext_vars = jn1.ext_vars) :
    SendEvent_loop env n jn whs = SendEvent_loop env n jn1 whs := by
  induction whs generalizing jn jn1 with
  | nil => rfl
  | cons wh rest ih =>
    rw [SendEvent_loop, SendEvent_loop, body_effects_congr env n jn jn1 wh h]
    congr 1
    apply ih
    rw [body_ext_vars, body_ext_vars, h]

theorem loop_append (env : Env) (n : String) (jn : Jsonnet) (xs ys : List Webhook) :
    SendEvent_loop env n jn (xs ++ ys) =
      SendEvent_loop env n jn xs ++ SendEvent_loop env n jn ys := by
  induction xs generalizing jn with
  | nil => rfl
  | cons wh rest ih =>
    rw [List.cons_append, SendEvent_loop, SendEvent_loop, ih, List.append_assoc]
    congr 2
    exact loop_congr env n _ _ ys (body_ext_vars env n jn wh)

theorem body_unparsable (env : Env) (n : String) (jn : Jsonnet) (wh : Webhook)
    (hu : env.Uri_Parse wh.url = none) :
    started (SendEvent_body env n jn wh).2 = [] ∧
      (n ∈ wh.on_ →
        (SendEvent_body env n jn wh).2.getLast? =
          some (Effect.log Severity.error ("Invalid url: " ++ wh.url))) := by
  constructor
  · rw [started_body]
    unfold deliveryFor
    rw [hu]
    split <;> rfl
  · intro hn
    have hc : wh.on_.contains n = true := by simpa using hn
    unfold SendEvent_body
    simp only [hc, Bool.not_true, Bool.false_eq_true, if_false, hu]
    rw [List.getLast?_append]
    rfl

/-- C13: an endpoint `A` whose URL does not parse gets no delivery: its pass of the loop only
logs (the last line, when `A` is subscribed, being `Invalid url: ` and the URL), and starts
nothing. The effects of `SendEvent` on the list with `A` are those on the list without `A`, with
the log lines of `A` put in at its place: every other endpoint is processed as if `A` were
absent. -/
theorem C13_unparsable_url_is_skipped (env : Env) (xs ys : List Webhook) (A : Webhook)
    (eventName : String) (ext_vars : List (String × Json))
    (hu : env.Uri_Parse A.url = none) :
    ∃ before logsA after,
      SendEvent env (xs ++ A :: ys) eventName ext_vars = before ++ logsA ++ after ∧
        SendEvent env (xs ++ ys) eventName ext_vars = before ++ after ∧
        started logsA = [] ∧
        (eventName ∈ A.on_ →
          logsA.getLast? = some (Effect.log Severity.error ("Invalid url: " ++ A.url))) ∧
        started (SendEvent env (xs ++ A :: ys) eventName ext_vars) =
          started (SendEvent env (xs ++ ys) eventName ext_vars) := by
  have hb := body_unparsable env eventName (SendEvent_bind env eventName ext_vars) A hu
  refine ⟨SendEvent env xs eventName ext_vars,
    (SendEvent_body env eventName (SendEvent_bind env eventName ext_vars) A).2,
    SendEvent_loop env eventName (SendEvent_bind env eventName ext_vars) ys, ?_, ?_, hb.1, hb.2,
    ?_⟩
  · unfold SendEvent
    rw [loop_append, SendEvent_loop,
      loop_congr env eventName _ (SendEvent_bind env eventName ext_vars) ys
        (body_ext_vars env eventName _ A)]
    simp only [List.append_assoc]
  · unfold SendEvent
    rw [loop_append]
    simp only [List.append_assoc]
  · rw [started_SendEvent, started_SendEvent, List.filterMap_append, List.filterMap_append,
      List.filterMap_cons]
    have hd : deliveryFor env eventName (SendEvent_bind env eventName ext_vars).ext_vars A =
        none := by
      unfold deliveryFor
      rw [hu]
      split <;> rfl
    rw [hd]

/-- C13, witness: between two good endpoints one with the URL `nowhere`; the deliveries are
those of the two good ones. -/
theorem C13_witness :
    ∃ before logsA after,
      SendEvent sampleEnv
          ([{ on_ := ["e"], url := "http://a/", headers := [], payload := none }] ++
            { on_ := ["e"], url := "nowhere", headers := [], payload := some "p" } ::
            [{ on_ := ["e"], url := "http://b/", headers := [], payload := none }]) "e" [] =
          before ++ logsA ++ after ∧
        SendEvent sampleEnv
          ([{ on_ := ["e"], url := "http://a/", headers := [], payload := none }] ++
            [{ on_ := ["e"], url := "http://b/", headers := [], payload := none }]) "e" [] =
          before ++ after ∧
        started logsA = [] ∧
        ("e" ∈ ({ on_ := ["e"], url := "nowhere", headers := [], payload := some "p" } :
            Webhook).on_ →
          logsA.getLast? = some (Effect.log Severity.error ("Invalid url: " ++ "nowhere"))) ∧
        started (SendEvent sampleEnv
          ([{ on_ := ["e"], url := "http://a/", headers := [], payload := none }] ++
            { on_ := ["e"], url := "nowhere", headers := [], payload := some "p" } ::
            [{ on_ := ["e"], url := "http://b/", headers := [], payload := none }]) "e" []) =
          started (SendEvent sampleEnv
            ([{ on_ := ["e"], url := "http://a/", headers := [], payload := none }] ++
              [{ on_ := ["e"], url := "http://b/", headers := [], payload := none }]) "e" []) :=
  C13_unparsable_url_is_skipped sampleEnv
    [{ on_ := ["e"], url := "http://a/", headers := [], payload := none }]
    [{ on_ := ["e"], url := "http://b/", headers := [], payload := none }]
    { on_ := ["e"], url := "nowhere", headers := [], payload := some "p" } "e" [] (by decide)

end Porla

namespace Porla

/-! ## `Host` and `User-Agent`: claim C14 -/

theorem iequals_congr_right (a m n : String) (h : iequals m n = true) :
    iequals a m = iequals a n := by
  rw [iequals_iff] at h
  cases h1 : iequals a n
  · cases h2 : iequals a m
    · rfl
    · rw [iequals_iff] at h2
      have : iequals a n = true := by rw [iequals_iff, h2, h]
      rw [this] at h1
      cases h1
  · rw [iequals_iff] at h1 ⊢
    rw [h1, h]

theorem filter_erase (fs : Fields) (n m : String) :
    (Fields.erase fs n).filter (fun f => iequals f.1 m) =
      if iequals n m then [] else fs.filter (fun f => iequals f.1 m) := by
  unfold Fields.erase
  rw [List.filter_filter]
  split
  · next h =>
    rw [List.filter_eq_nil_iff]
    intro f _ hf
    rw [Bool.and_eq_true] at hf
    have e := iequals_congr_right f.1 n m h
    rw [e, hf.1] at hf
    exact absurd hf.2 (by decide)
  · next h =>
    apply List.filter_congr
    intro f _
    cases hf : iequals f.1 m
    · rfl
    · cases hn : iequals f.1 n
      · rfl
      · exfalso
        apply h
        rw [iequals_iff] at hf hn ⊢
        rw [← hn, hf]

theorem filter_set (fs : Fields) (n v m : String) :
    (Fields.set fs n v).filter (fun f => iequals f.1 m) =
      if iequals n m then [(n, v)] else fs.filter (fun f => iequals f.1 m) := by
  unfold Fields.set
  rw [List.filter_append, filter_erase]
  by_cases hn : iequals n m = true
  · simp [hn, List.filter_cons]
  · simp [hn, List.filter_cons]

theorem filter_set_chunked_false (f : String → String) (fs : Fields) (m : String)
    (hm : iequals field_transfer_encoding m = false) :
    (set_chunked_false f fs).filter (fun x => iequals x.1 m) =
      fs.filter (fun x => iequals x.1 m) := by
  unfold set_chunked_false
  split
  · rfl
  · split
    · rw [filter_erase, hm]; simp
    · rw [filter_set, hm]; simp

theorem filter_prepare_payload (f : String → String) (req : Request) (m : String)
    (hm : iequals field_transfer_encoding m = false)
    (hl : iequals field_content_length m = false) :
    (prepare_payload f req).fields.filter (fun x => iequals x.1 m) =
      req.fields.filter (fun x => iequals x.1 m) := by
  unfold prepare_payload
  simp only
  split
  · simp only
    rw [filter_set_chunked_false f _ m hm, filter_set, hl]; simp
  · simp only
    rw [filter_erase, hl]
    simp [filter_set_chunked_false f _ m hm]

/-- C14: whatever the user headers are, the request built by `SendRequest` has exactly one
field whose name is `Host` in any letter case, the field `Host` with the URI host, a colon and
the decimal port, and exactly one field whose name is `User-Agent` in any letter case, the field
`User-Agent` with the value `porla/1.0`; looking either up under a name in another letter case
gives that one value. -/
theorem C14_host_and_user_agent_not_overridable (env : Env) (state : RequestState) :
    (buildRequest env state).fields.filter (fun f => iequals f.1 field_host) =
        [(field_host, state.m_uri.host ++ ":" ++ Nat.repr state.m_uri.port)] ∧
      (buildRequest env state).fields.filter (fun f => iequals f.1 field_user_agent) =
        [(field_user_agent, "porla/1.0")] ∧
      (∀ name, iequals name field_host = true →
        Fields.values (buildRequest env state).fields name =
          [state.m_uri.host ++ ":" ++ Nat.repr state.m_uri.port]) ∧
      (∀ name, iequals name field_user_agent = true →
        Fields.values (buildRequest env state).fields name = ["porla/1.0"]) := by
  have hh : (buildRequest env state).fields.filter (fun f => iequals f.1 field_host) =
      [(field_host, state.m_uri.host ++ ":" ++ Nat.repr state.m_uri.port)] := by
    unfold buildRequest
    simp only
    rw [filter_prepare_payload _ _ _ (by decide) (by decide)]
    simp only
    rw [filter_set, if_neg (by decide), filter_set, if_pos (by decide)]
    rfl
  have hua : (buildRequest env state).fields.filter (fun f => iequals f.1 field_user_agent) =
      [(field_user_agent, "porla/1.0")] := by
    unfold buildRequest
    simp only
    rw [filter_prepare_payload _ _ _ (by decide) (by decide)]
    simp only
    rw [filter_set, if_pos (by decide)]
  refine ⟨hh, hua, ?_, ?_⟩
  · intro name hn
    unfold Fields.values
    have e : (fun f : String × String => iequals f.1 name) =
        (fun f : String × String => iequals f.1 field_host) := by
      funext f
      exact iequals_congr_right f.1 name field_host hn
    rw [e, hh]
    rfl
  · intro name hn
    unfold Fields.values
    have e : (fun f : String × String => iequals f.1 name) =
        (fun f : String × String => iequals f.1 field_user_agent) := by
      funext f
      exact iequals_congr_right f.1 name field_user_agent hn
    rw [e, hua]
    rfl

/-- C14, witness: the user headers name `HOST` and `user-agent`; a lookup of `hOsT` finds the
forced value alone. -/
theorem C14_witness :
    Fields.values
        (buildRequest sampleEnv
          { m_uri := { scheme := "http", host := "a", port := 81, path := "/x" }
            m_webhook :=
              { on_ := ["e"], url := "http://a:81/x",
                headers := [("HOST", "evil"), ("user-agent", "curl")], payload := none }
            m_payload := "" }).fields "hOsT" =
      ["a" ++ ":" ++ Nat.repr 81] :=
  (C14_host_and_user_agent_not_overridable sampleEnv
    { m_uri := { scheme := "http", host := "a", port := 81, path := "/x" }
      m_webhook :=
        { on_ := ["e"], url := "http://a:81/x",
          headers := [("HOST", "evil"), ("user-agent", "curl")], payload := none }
      m_payload := "" }).2.2.1 "hOsT" (by decide)

/-! ## `Log::Invoke`: claim C15 -/

/-- C15: with arguments whose first element is a string, `Log::Invoke` logs and then calls the
completion callback exactly once, with `true`; with no arguments it returns without logging and
without calling the callback. -/
theorem C15_log_invoke_callback (format : String → String) (hash : info_hash_t) (s : String)
    (rest : List Toml) :
    (∃ effs, Log_Invoke format hash (Toml.string s :: rest) = Except.ok effs ∧
        callbackCalls effs = [true] ∧
        effs = [ActionEffect.log Severity.info (format s), ActionEffect.callback_Invoke true]) ∧
      ∃ effs, Log_Invoke format hash [] = Except.ok effs ∧ callbackCalls effs = [] ∧
        effs = [] :=
  ⟨⟨_, rfl, rfl, rfl⟩, ⟨_, rfl, rfl, rfl⟩⟩

/-! ## `ApplyPresetActions`: claim C16 -/

theorem action_args_loop_eq (ps : List Toml) (fuel i : Nat) (acc : List Toml)
    (h : ps.length ≤ fuel + i) :
    action_args_loop ps fuel i acc = acc ++ ps.drop i := by
  induction fuel generalizing i acc with
  | zero =>
    unfold action_args_loop
    rw [List.drop_eq_nil_of_le (by omega), List.append_nil]
  | succ fuel ih =>
    unfold action_args_loop
    by_cases hi : i < ps.length
    · rw [if_pos hi]
      have hg : ps.get? i = some (ps.get ⟨i, hi⟩) := List.get?_eq_get hi
      rw [hg]
      simp only
      rw [ih (i + 1) _ (by omega), List.append_assoc, List.singleton_append]
      congr 1
      exact (List.drop_eq_getElem_cons hi).symm
    · rw [if_neg hi, List.drop_eq_nil_of_le (by omega), List.append_nil]

/-- C16: `ApplyPresetActions` keeps the elements that `config_actions` already has and appends,
in the order of the array, one preset action for every item that is a non-empty array whose
first element is a string: its name is that string and its arguments are the remaining elements
of the item in their order. Every other item adds nothing. -/
theorem C16_apply_preset_actions (config_actions : List PresetAction)
    (actions_array : List Toml) :
    ApplyPresetActions config_actions actions_array =
      config_actions ++ actions_array.filterMap spec_presetAction := by
  induction actions_array generalizing config_actions with
  | nil => simp [ApplyPresetActions]
  | cons item rest ih =>
    unfold ApplyPresetActions
    cases item with
    | string t => simp [Toml.as_array, spec_presetAction, ih]
    | integer n => simp [Toml.as_array, spec_presetAction, ih]
    | boolean b => simp [Toml.as_array, spec_presetAction, ih]
    | table kvs => simp [Toml.as_array, spec_presetAction, ih]
    | array ps =>
      cases ps with
      | nil => simp [Toml.as_array, spec_presetAction, ih]
      | cons first args =>
        have hl : action_args_loop (first :: args) (first :: args).length 1 [] = args := by
          rw [action_args_loop_eq _ _ _ _ (by omega)]
          rfl
        cases first with
        | string name =>
          simp only [Toml.as_array, List.isEmpty_cons, Bool.false_eq_true, if_false,
            List.get?_cons_zero, Toml.value_string, hl, ih, spec_presetAction,
            List.filterMap_cons, List.append_assoc, List.singleton_append]
        | integer n =>
          simp [Toml.as_array, Toml.value_string, spec_presetAction, ih]
        | boolean b =>
          simp [Toml.as_array, Toml.value_string, spec_presetAction, ih]
        | array ys =>
          simp [Toml.as_array, Toml.value_string, spec_presetAction, ih]
        | table kvs =>
          simp [Toml.as_array, Toml.value_string, spec_presetAction, ih]

end Porla

namespace Porla

/-! ## The handlers and the other deliveries: claim C9 -/

theorem async_start_frame (client : WebhookClient) (op : Op) (state : StatePtr) :
    (client.async_start op state).1.states = client.states ∧
      (client.async_start op state).1.m_webhooks = client.m_webhooks ∧
      (client.async_start op state).1.m_io = client.m_io ++ [{ op := op, state := state }] ∧
      (client.async_start op state).2 = [Effect.start op (client.states state)] :=
  ⟨rfl, rfl, rfl, rfl⟩

theorem SendRequest_frame (env : Env) (client : WebhookClient) (state : StatePtr) :
    (WebhookClient.SendRequest env client state).1.states = client.states ∧
      (WebhookClient.SendRequest env client state).1.m_webhooks = client.m_webhooks ∧
      (WebhookClient.SendRequest env client state).2 = SendRequest env (client.states state) ∧
      (WebhookClient.SendRequest env client state).1.m_io =
        client.m_io ++
          (started (SendRequest env (client.states state))).map
            (fun d => { op := d.1, state := state }) := by
  unfold WebhookClient.SendRequest SendRequest
  split <;> exact ⟨rfl, rfl, rfl, rfl⟩

theorem complete_frame (env : Env) (client : WebhookClient) (op : Op) (ec : ErrorCode)
    (state : StatePtr) :
    (WebhookClient.complete env client op ec state).1.states = client.states ∧
      (WebhookClient.complete env client op ec state).1.m_webhooks = client.m_webhooks ∧
      (WebhookClient.complete env client op ec state).2 =
        complete env op ec (client.states state) ∧
      (WebhookClient.complete env client op ec state).1.m_io =
        client.m_io ++
          (started (complete env op ec (client.states state))).map
            (fun d => { op := d.1, state := state }) := by
  cases ec with
  | some msg =>
    cases op <;> exact ⟨rfl, rfl, rfl, (List.append_nil _).symm⟩
  | none =>
    cases op with
    | async_resolve host service => exact ⟨rfl, rfl, rfl, rfl⟩
    | async_connect s =>
      simp only [WebhookClient.complete, WebhookClient.OnAsyncConnect, complete, OnAsyncConnect]
      split
      · split
        · exact ⟨rfl, rfl, rfl, (List.append_nil _).symm⟩
        · exact ⟨rfl, rfl, rfl, rfl⟩
      · exact SendRequest_frame env client state
    | async_handshake => exact SendRequest_frame env client state
    | async_write s req =>
      simp only [WebhookClient.complete, WebhookClient.OnAsyncWrite, complete, OnAsyncWrite]
      split <;> exact ⟨rfl, rfl, rfl, rfl⟩
    | async_read s => exact ⟨rfl, rfl, rfl, (List.append_nil _).symm⟩

/-- C9: a completion handler, called on the client with the pointer to its request state and
any error code, writes no request state at all (its own or another delivery's) and leaves
`m_webhooks` as it is; what it logs and starts is a function of the request state behind its
own pointer alone; and the operations in flight afterwards are those in flight before, each
unchanged and in the same order, followed by what the handler started, all with the handler's
own pointer. So when the `io_context` reports the completion of one operation, every other
operation stays in flight, and after an error nothing is added: no other delivery is affected,
delayed or cancelled. -/
theorem C9_completion_touches_only_own_delivery (env : Env) (client : WebhookClient) (k : Nat)
    (ec : ErrorCode) (p : InFlight) (hk : client.m_io.get? k = some p) :
    (∀ (op : Op) (state : StatePtr),
      (WebhookClient.complete env client op ec state).1.states = client.states ∧
        (WebhookClient.complete env client op ec state).1.m_webhooks = client.m_webhooks ∧
        (WebhookClient.complete env client op ec state).2 =
          complete env op ec (client.states state) ∧
        (WebhookClient.complete env client op ec state).1.m_io =
          client.m_io ++
            (started (complete env op ec (client.states state))).map
              (fun d => { op := d.1, state := state })) ∧
      (client.onCompletion env k ec).1.states = client.states ∧
      (client.onCompletion env k ec).1.m_webhooks = client.m_webhooks ∧
      (client.onCompletion env k ec).2 = complete env p.op ec (client.states p.state) ∧
      (client.onCompletion env k ec).1.m_io =
        client.m_io.eraseIdx k ++
          (started (client.onCompletion env k ec).2).map
            (fun d => { op := d.1, state := p.state }) ∧
      ∀ msg, ec = some msg → (client.onCompletion env k ec).1.m_io = client.m_io.eraseIdx k := by
  have h := complete_frame env { client with m_io := client.m_io.eraseIdx k } p.op ec p.state
  have e : client.onCompletion env k ec =
      WebhookClient.complete env { client with m_io := client.m_io.eraseIdx k } p.op ec
        p.state := by
    unfold WebhookClient.onCompletion
    rw [hk]
  refine ⟨fun op state => complete_frame env client op ec state, ?_, ?_, ?_, ?_, ?_⟩
  · rw [e]; exact h.1
  · rw [e]; exact h.2.1
  · rw [e]; exact h.2.2.1
  · rw [e, h.2.2.1]; exact h.2.2.2
  · intro msg hm
    rw [e, h.2.2.2, hm, started_complete_error]
    exact List.append_nil _

/-- C9, witness: a connect of the delivery at address 0 and a read of the delivery at address 1
are in flight; the connect fails; afterwards the read is in flight as before and the request
state at address 1 is what it was. -/
theorem C9_witness :
    (WebhookClient.onCompletion sampleEnv
        { m_webhooks := []
          states := fun ptr =>
            if ptr = 0 then
              { m_uri := { scheme := "http", host := "a", port := 80, path := "/" }
                m_webhook := { on_ := ["e"], url := "http://a/", headers := [], payload := none }
                m_payload := "" }
            else
              { m_uri := { scheme := "http", host := "b", port := 80, path := "/" }
                m_webhook := { on_ := ["e"], url := "http://b/", headers := [], payload := none }
                m_payload := "" }
          m_io :=
            [{ op := Op.async_connect Stream.m_stream, state := 0 },
             { op := Op.async_read Stream.m_stream, state := 1 }] }
        0 (some "connection refused")).1.m_io =
      [{ op := Op.async_read Stream.m_stream, state := 1 }] ∧
    (WebhookClient.onCompletion sampleEnv
        { m_webhooks := []
          states := fun ptr =>
            if ptr = 0 then
              { m_uri := { scheme := "http", host := "a", port := 80, path := "/" }
                m_webhook := { on_ := ["e"], url := "http://a/", headers := [], payload := none }
                m_payload := "" }
            else
              { m_uri := { scheme := "http", host := "b", port := 80, path := "/" }
                m_webhook := { on_ := ["e"], url := "http://b/", headers := [], payload := none }
                m_payload := "" }
          m_io :=
            [{ op := Op.async_connect Stream.m_stream, state := 0 },
             { op := Op.async_read Stream.m_stream, state := 1 }] }
        0 (some "connection refused")).1.states 1 =
      { m_uri := { scheme := "http", host := "b", port := 80, path := "/" }
        m_webhook := { on_ := ["e"], url := "http://b/", headers := [], payload := none }
        m_payload := "" } := by
  have h := C9_completion_touches_only_own_delivery sampleEnv
    { m_webhooks := []
      states := fun ptr =>
        if ptr = 0 then
          { m_uri := { scheme := "http", host := "a", port := 80, path := "/" }
            m_webhook := { on_ := ["e"], url := "http://a/", headers := [], payload := none }
            m_payload := "" }
        else
          { m_uri := { scheme := "http", host := "b", port := 80, path := "/" }
            m_webhook := { on_ := ["e"], url := "http://b/", headers := [], payload := none }
            m_payload := "" }
      m_io :=
        [{ op := Op.async_connect Stream.m_stream, state := 0 },
         { op := Op.async_read Stream.m_stream, state := 1 }] }
    0 (some "connection refused") { op := Op.async_connect Stream.m_stream, state := 0 } rfl
  refine ⟨?_, ?_⟩
  · rw [h.2.2.2.2.2 "connection refused" rfl]
    rfl
  · rw [h.2.1]
    rfl

end Porla
